import Mathlib

/-!
Verification of the wirefilter lexer (src/lib.rs).

The Rust source builds six scanners from nom 2/3-era streaming parser
macros over string slices.  We embed the input as a list of characters
and reproduce the tri-state result type (Done / Error / Incomplete)
together with the exact combinators the source uses: tag, char, one_of,
take, the one-or-more character-class readers (digit, hex_digit,
oct_digit, alpha), is_not, anychar, map, map_res, opt, alt, switch,
fold_many0 and do_parse-style sequencing with the consumed-length
adjustment nom applies to Incomplete size hints.  The semantics of each
combinator follows the nom version the repository pins, as exercised by
the repository's own test suite (which fixes error kinds, error
positions, and the Needed::Size(7) incomplete hint for parse_string).
-/

namespace Wirefilter

/-- Input slices are lists of characters (the relevant behaviour is
character-oriented; all inputs in the repository are ASCII). -/
abbrev Str := List Char

/-- The nom error kinds reachable from this source file. -/
inductive ErrorKind where
  | Tag | MapRes | Digit | HexDigit | OctDigit | Alpha | Alt | Switch
  | OneOf | IsNot | Chr | Many0
  deriving DecidableEq, Repr

/-- nom error values: `error_position!` and `error_node_position!`. -/
inductive NomError where
  | position (k : ErrorKind) (i : Str)
  | nodePos (k : ErrorKind) (i : Str) (e : NomError)
  deriving DecidableEq, Repr

/-- nom `Needed`: how much more input an incomplete parse wants. -/
inductive Needed where
  | unknown
  | size (n : Nat)
  deriving DecidableEq, Repr

/-- nom `IResult`: success with remaining input, hard error, or
incomplete (more input required). -/
inductive IResult (α : Type) where
  | done (rest : Str) (out : α)
  | error (e : NomError)
  | incomplete (n : Needed)
  deriving DecidableEq, Repr

abbrev Parser (α : Type) := Str → IResult α

/-- Whether a result is a hard error. -/
def IResult.isError : IResult α → Bool
  | .error _ => true
  | _ => false

/-- Whether a result is an incomplete signal. -/
def IResult.isIncomplete : IResult α → Bool
  | .incomplete _ => true
  | _ => false

/-- Whether a result is a success. -/
def IResult.isDone : IResult α → Bool
  | .done _ _ => true
  | _ => false

/-! ## Character classes (nom AsChar, ASCII as used by the source) -/

def isDecDigit (c : Char) : Bool := '0' ≤ c && c ≤ '9'

def isHexDig (c : Char) : Bool :=
  ('0' ≤ c && c ≤ '9') || ('a' ≤ c && c ≤ 'f') || ('A' ≤ c && c ≤ 'F')

def isOctDigit (c : Char) : Bool := '0' ≤ c && c ≤ '7'

/-- ASCII test. -/
def isAscii (c : Char) : Bool := c.toNat < 128

/-- The alphabetic class used by nom's `alpha` is Rust's
`char::is_alphabetic`, i.e. the full Unicode Alphabetic property.  We
model its restriction to ASCII, where Alphabetic is exactly `a`-`z` and
`A`-`Z`.  The model agrees with the program on every ASCII character;
every theorem below that relies on a character *not* being alphabetic
additionally assumes that character is ASCII, so nothing is asserted
about non-ASCII input, where this restriction is not faithful. -/
def isAlphaChar (c : Char) : Bool :=
  ('a' ≤ c && c ≤ 'z') || ('A' ≤ c && c ≤ 'Z')

/-! ## Rust integer parsing (u64::from_str_radix, u8::from_str, ...) -/

/-- Digit value of a character ignoring the base, as in Rust's
`char::to_digit`: `0`-`9`, then letters valued from 10. -/
def rawDigit (c : Char) : Option Nat :=
  if '0' ≤ c && c ≤ '9' then some (c.toNat - '0'.toNat)
  else if 'a' ≤ c && c ≤ 'z' then some (c.toNat - 'a'.toNat + 10)
  else if 'A' ≤ c && c ≤ 'Z' then some (c.toNat - 'A'.toNat + 10)
  else none

/-- Value of one digit character in the given base, if valid. -/
def digitVal (base : Nat) (c : Char) : Option Nat :=
  match rawDigit c with
  | some d => if d < base then some d else none
  | none => none

/-- Accumulating value of a digit string; `none` on any invalid digit. -/
def digitsVal (base : Nat) : Nat → Str → Option Nat
  | acc, [] => some acc
  | acc, c :: cs =>
    match digitVal base c with
    | some d => digitsVal base (acc * base + d) cs
    | none => none

/-- Models Rust's `uN::from_str_radix` (and `from_str`, which is
`from_str_radix` at base 10) for an unsigned `bits`-bit integer: an
optional leading `+` (a `-` is not a sign for unsigned types and fails
as an invalid digit), then one or more digits of the base; overflow of
the `bits`-bit range fails.  Computing the unbounded value and
bounds-checking at the end is equivalent to Rust's per-step checked
arithmetic because the accumulator only grows. -/
def fromStrRadix (bits base : Nat) (s : Str) : Option Nat :=
  let ds : Str :=
    match s with
    | c :: r => if c = '+' then r else s
    | [] => s
  if ds = [] then none
  else
    match digitsVal base 0 ds with
    | some v => if v < 2 ^ bits then some v else none
    | none => none

/-! ## nom combinators -/

/-- nom `tag!`: match a fixed literal; a proper prefix of the tag at the
end of input yields `Incomplete(Size(tag.len()))`. -/
def tagP (t : Str) : Parser Str := fun i =>
  if i.take t.length = t then .done (i.drop t.length) t
  else if i = t.take i.length then .incomplete (.size t.length)
  else .error (.position .Tag i)

/-- nom `char!`. -/
def charP (c : Char) : Parser Char := fun i =>
  match i with
  | [] => .incomplete (.size 1)
  | x :: rest => if x = c then .done rest c else .error (.position .Chr (x :: rest))

/-- nom `one_of!`. -/
def oneOfP (cs : Str) : Parser Char := fun i =>
  match i with
  | [] => .incomplete (.size 1)
  | x :: rest => if cs.contains x then .done rest x else .error (.position .OneOf (x :: rest))

/-- nom `take!`. -/
def takeP (n : Nat) : Parser Str := fun i =>
  if i.length < n then .incomplete (.size n) else .done (i.drop n) (i.take n)

/-- nom's one-or-more character-class readers (`digit`, `hex_digit`,
`oct_digit`, `alpha`): empty input is incomplete, a non-matching first
character is an error of the given kind, otherwise the maximal matching
run is consumed (reaching the end of input still succeeds). -/
def classRun (p : Char → Bool) (k : ErrorKind) : Parser Str := fun i =>
  match i with
  | [] => .incomplete (.size 1)
  | x :: rest =>
    if p x then .done ((x :: rest).dropWhile p) ((x :: rest).takeWhile p)
    else .error (.position k (x :: rest))

def digit : Parser Str := classRun isDecDigit .Digit

def hex_digit : Parser Str := classRun isHexDig .HexDigit

def oct_digit : Parser Str := classRun isOctDigit .OctDigit

def alpha : Parser Str := classRun isAlphaChar .Alpha

/-- nom `is_not!`: maximal run of characters outside the set; an
immediate set member is an `IsNot` error; no set member at all (including
empty input) succeeds consuming everything. -/
def isNotP (cs : Str) : Parser Str := fun i =>
  match i with
  | [] => .done [] []
  | x :: rest =>
    if cs.contains x then .error (.position .IsNot (x :: rest))
    else .done ((x :: rest).dropWhile (fun c => ! cs.contains c))
               ((x :: rest).takeWhile (fun c => ! cs.contains c))

/-- nom `anychar`. -/
def anycharP : Parser Char := fun i =>
  match i with
  | [] => .incomplete (.size 1)
  | x :: rest => .done rest x

/-- nom `map!`. -/
def mapP (p : Parser α) (f : α → β) : Parser β := fun i =>
  match p i with
  | .done r o => .done r (f o)
  | .error e => .error e
  | .incomplete n => .incomplete n

/-- nom `map_res!`: a failing conversion is a `MapRes` error positioned
at the input handed to `map_res!`. -/
def mapResP (p : Parser α) (f : α → Option β) : Parser β := fun i =>
  match p i with
  | .done r o =>
    match f o with
    | some b => .done r b
    | none => .error (.position .MapRes i)
  | .error e => .error e
  | .incomplete n => .incomplete n

/-- nom `value!`. -/
def valueP (v : β) (p : Parser α) : Parser β := mapP p (fun _ => v)

/-- nom `opt!`: errors become `None`, incompleteness propagates. -/
def optP (p : Parser α) : Parser (Option α) := fun i =>
  match p i with
  | .done r o => .done r (some o)
  | .error _ => .done i none
  | .incomplete n => .incomplete n

/-- Sequencing as in nom's `do_parse!` / `preceded!` / `tuple!`: when a
later step is incomplete with a size hint, the length already consumed
is added to the hint. -/
def seqP (p : Parser α) (f : α → Parser β) : Parser β := fun i =>
  match p i with
  | .done i1 o =>
    match f o i1 with
    | .incomplete (.size n) => .incomplete (.size (n + (i.length - i1.length)))
    | r => r
  | .error e => .error e
  | .incomplete n => .incomplete n

/-- nom `preceded!`. -/
def precededP (p : Parser α) (q : Parser β) : Parser β := seqP p (fun _ => q)

/-- nom `alt!`: alternatives are tried in order; the first `Done` or
`Incomplete` outcome is returned without trying further branches; if
every branch errors the result is an `Alt` error at the whole input. -/
def altP : List (Parser α) → Parser α
  | [] => fun i => .error (.position .Alt i)
  | p :: ps => fun i =>
    match p i with
    | .error _ => altP ps i
    | r => r

/-- Loop body of nom `fold_many0!` (nom 2/3 shape): empty input stops
with the accumulator; an inner error stops with the accumulator; inner
incompleteness propagates with the size hint adjusted by the length the
fold already consumed; a non-consuming inner success is a `Many0` error.
The fuel argument exceeds the number of possible iterations (each
iteration consumes at least one character). -/
def foldGo (p : Parser α) (f : β → α → β) : Nat → Str → Str → β → IResult β
  | 0, _, input, _ => .error (.position .Many0 input)
  | fuel + 1, i0, input, acc =>
    if input = [] then .done input acc
    else
      match p input with
      | .error _ => .done input acc
      | .incomplete .unknown => .incomplete .unknown
      | .incomplete (.size n) => .incomplete (.size (n + (i0.length - input.length)))
      | .done i1 o =>
        if i1 = input then .error (.position .Many0 input)
        else foldGo p f fuel i0 i1 (f acc o)

/-- nom `fold_many0!`. -/
def foldMany0P (p : Parser α) (init : β) (f : β → α → β) : Parser β := fun i =>
  foldGo p f (i.length + 1) i i init

/-! ## Data model (src/lib.rs) -/

/-- `enum Operator` from the source. -/
inductive Operator where
  | Equal | NotEqual | GreaterThan | LessThan | GreaterThanEqual
  | LessThanEqual | Contains | Matches | BitwiseAnd
  deriving DecidableEq, Repr

/-- `enum IdentifierLike` from the source. -/
inductive IdentifierLike where
  | Identifier (s : Str)
  | Operator (op : Operator)
  deriving DecidableEq, Repr

/-- `Cow<str>`: a borrowed view or an owned buffer. -/
inductive CowStr where
  | borrowed (s : Str)
  | owned (s : Str)
  deriving DecidableEq, Repr

/-- Character data of a `Cow<str>`. -/
def CowStr.chars : CowStr → Str
  | .borrowed s => s
  | .owned s => s

/-! ## The six scanners (src/lib.rs lines 27-110) -/

/-- `parse_unsigned`: `alt!` of the hex, octal and decimal branches, in
that order (lines 27-31). -/
def parse_unsigned : Parser Nat := altP [
  precededP (tagP ['0', 'x']) (mapResP hex_digit (fromStrRadix 64 16)),
  precededP (tagP ['0']) (mapResP oct_digit (fromStrRadix 64 8)),
  mapResP digit (fromStrRadix 64 10)]

/-- `parse_operator`: `alt!` of the eight fixed tags, in source order
(lines 33-42). -/
def parse_operator : Parser Operator := altP [
  valueP .Equal (tagP ['=', '=']),
  valueP .NotEqual (tagP ['!', '=']),
  valueP .GreaterThanEqual (tagP ['>', '=']),
  valueP .LessThanEqual (tagP ['<', '=']),
  valueP .GreaterThan (tagP ['>']),
  valueP .LessThan (tagP ['<']),
  valueP .Matches (tagP ['~']),
  valueP .BitwiseAnd (tagP ['&'])]

/-- The `switch!` table of `parse_identifier_like` (lines 45-54):
the whole alphabetic run is compared against the keyword spellings,
anything else is an identifier. -/
def keywordTable (s : Str) : IdentifierLike :=
  if s = ('e' :: ['q']) then .Operator .Equal
  else if s = ('n' :: ['e']) then .Operator .NotEqual
  else if s = ('g' :: ['t']) then .Operator .GreaterThan
  else if s = ('l' :: ['t']) then .Operator .LessThan
  else if s = ('g' :: ['e']) then .Operator .GreaterThanEqual
  else if s = ('l' :: ['e']) then .Operator .LessThanEqual
  else if s = ('c' :: ['o', 'n', 't', 'a', 'i', 'n', 's']) then .Operator .Contains
  else if s = ('m' :: ['a', 't', 'c', 'h', 'e', 's']) then .Operator .Matches
  else if s = ('b' :: ['i', 't', 'w', 'i', 's', 'e', '_', 'a', 'n', 'd']) then .Operator .BitwiseAnd
  else .Identifier s

/-- `parse_identifier_like`: `switch!(alpha, ...)` (lines 44-55). An
`alpha` failure is wrapped as `error_node_position!(Switch, input, inner)`;
the arms are `value!` parsers, which cannot fail. -/
def parse_identifier_like : Parser IdentifierLike := fun i =>
  match alpha i with
  | .done i1 o => .done i1 (keywordTable o)
  | .error e => .error (.nodePos .Switch i e)
  | .incomplete n => .incomplete n

/-- `ethernet_separator` (line 57). -/
def ethernet_separator : Parser Char := oneOfP [':', '.', '-']

/-- `hex_byte`: exactly two characters read as a base-16 `u8` (line 59). -/
def hex_byte : Parser Nat := mapResP (takeP 2) (fromStrRadix 8 16)

/-- `hex_byte_pair` (lines 61-66): two hex bytes with an optional
separator between them. -/
def hex_byte_pair : Parser (Nat × Nat) :=
  seqP hex_byte fun b1 =>
  seqP (optP ethernet_separator) fun _ =>
  mapP hex_byte fun b2 => (b1, b2)

/-- `parse_ethernet_addr` (lines 68-75): three byte pairs with required
separators between the pairs. -/
def parse_ethernet_addr : Parser (List Nat) :=
  seqP hex_byte_pair fun w1 =>
  seqP ethernet_separator fun _ =>
  seqP hex_byte_pair fun w2 =>
  seqP ethernet_separator fun _ =>
  mapP hex_byte_pair fun w3 => [w1.1, w1.2, w2.1, w2.2, w3.1, w3.2]

/-- `dec_byte`: a decimal digit run read as a `u8` (line 77). -/
def dec_byte : Parser Nat := mapResP digit (fromStrRadix 8 10)

/-- `parse_ipv4` (lines 79-88). -/
def parse_ipv4 : Parser (List Nat) :=
  seqP dec_byte fun b1 =>
  seqP (charP '.') fun _ =>
  seqP dec_byte fun b2 =>
  seqP (charP '.') fun _ =>
  seqP dec_byte fun b3 =>
  seqP (charP '.') fun _ =>
  mapP dec_byte fun b4 => [b1, b2, b3, b4]

/-- `oct_byte`: exactly three characters read as a base-8 `u8` (line 90). -/
def oct_byte : Parser Nat := mapResP (takeP 3) (fromStrRadix 8 8)

/-- The escape head of `parse_string` (lines 96-100): `x` plus two hex
digits, or three octal digits, or any single character verbatim. -/
def escape_char : Parser Char := altP [
  precededP (charP 'x') (mapP hex_byte Char.ofNat),
  mapP oct_byte Char.ofNat,
  anycharP]

/-- One `fold_many0!` item of `parse_string` (lines 95-101): a backslash,
an escape, then the following escape-free run (possibly empty). -/
def escape_item : Parser (Char × Str) :=
  precededP (charP '\\')
    (seqP escape_char fun c =>
      mapP (optP (isNotP ['\x22', '\\'])) fun r => (c, r.getD []))

/-- The fold step of `parse_string` (lines 102-107): the accumulator is
turned into an owned buffer and the decoded character and trailing run
are appended. -/
def cowStep (acc : CowStr) (item : Char × Str) : CowStr :=
  .owned (acc.chars ++ item.1 :: item.2)

/-- `parse_string` (lines 92-110). -/
def parse_string : Parser CowStr :=
  seqP (charP '\x22') fun _ =>
  seqP (mapP (isNotP ['\x22', '\\']) CowStr.borrowed) fun unpref =>
  seqP (foldMany0P escape_item unpref cowStep) fun res =>
  mapP (charP '\x22') fun _ => res

/-! ## Auxiliary notions used by the statements -/

/-- The first character of a list, if any, fails the predicate.  This is
the side condition making a run maximal. -/
def headFails (p : Char → Bool) : Str → Bool
  | [] => true
  | c :: _ => ! p c

/-- The first character, if any, is an ASCII character that is not
alphabetic.  On such a character the program's `char::is_alphabetic`
and the ASCII model agree that an alphabetic run stops, so this is the
faithful maximality condition for `alpha`. -/
def headStopsAlpha : Str → Bool
  | [] => true
  | c :: _ => isAscii c && ! isAlphaChar c

/-- Render an optional separator character. -/
def optSep : Option Char → Str
  | none => []
  | some c => [c]

/-- The eight operator tags, in the order `parse_operator` tries them. -/
def opTags : List Str :=
  [['=', '='], ['!', '='], ['>', '='], ['<', '='], ['>'], ['<'], ['~'], ['&']]

/-- The separator characters accepted by `ethernet_separator`. -/
def sepChars : Str := [':', '.', '-']

/-! ## Basic rewriting lemmas for the combinators -/

theorem seqP_err {p : Parser α} {f : α → Parser β} {i : Str} {e : NomError}
    (h : p i = .error e) : seqP p f i = .error e := by
  simp [seqP, h]

theorem seqP_inc {p : Parser α} {f : α → Parser β} {i : Str} {n : Needed}
    (h : p i = .incomplete n) : seqP p f i = .incomplete n := by
  simp [seqP, h]

theorem seqP_done_done {p : Parser α} {f : α → Parser β} {i i1 i2 : Str} {o : α} {o2 : β}
    (h1 : p i = .done i1 o) (h2 : f o i1 = .done i2 o2) : seqP p f i = .done i2 o2 := by
  simp [seqP, h1, h2]

theorem seqP_done_err {p : Parser α} {f : α → Parser β} {i i1 : Str} {o : α} {e : NomError}
    (h1 : p i = .done i1 o) (h2 : f o i1 = .error e) : seqP p f i = .error e := by
  simp [seqP, h1, h2]

theorem seqP_done_incS {p : Parser α} {f : α → Parser β} {i i1 : Str} {o : α} {n : Nat}
    (h1 : p i = .done i1 o) (h2 : f o i1 = .incomplete (.size n)) :
    seqP p f i = .incomplete (.size (n + (i.length - i1.length))) := by
  simp [seqP, h1, h2]

theorem seqP_done_incE {p : Parser α} {f : α → Parser β} {i i1 : Str} {o : α}
    (h1 : p i = .done i1 o) (h2 : ∃ m, f o i1 = .incomplete (.size m)) :
    ∃ m, seqP p f i = .incomplete (.size m) := by
  obtain ⟨m, hm⟩ := h2
  exact ⟨m + (i.length - i1.length), seqP_done_incS h1 hm⟩

theorem mapP_done {p : Parser α} {f : α → β} {i r : Str} {o : α}
    (h : p i = .done r o) : mapP p f i = .done r (f o) := by
  simp [mapP, h]

theorem mapP_err {p : Parser α} {f : α → β} {i : Str} {e : NomError}
    (h : p i = .error e) : mapP p f i = .error e := by
  simp [mapP, h]

theorem mapP_inc {p : Parser α} {f : α → β} {i : Str} {n : Needed}
    (h : p i = .incomplete n) : mapP p f i = .incomplete n := by
  simp [mapP, h]

theorem mapResP_done {p : Parser α} {f : α → Option β} {i r : Str} {o : α} {b : β}
    (h : p i = .done r o) (hf : f o = some b) : mapResP p f i = .done r b := by
  simp [mapResP, h, hf]

theorem mapResP_none {p : Parser α} {f : α → Option β} {i r : Str} {o : α}
    (h : p i = .done r o) (hf : f o = none) :
    mapResP p f i = .error (.position .MapRes i) := by
  simp [mapResP, h, hf]

theorem mapResP_err {p : Parser α} {f : α → Option β} {i : Str} {e : NomError}
    (h : p i = .error e) : mapResP p f i = .error e := by
  simp [mapResP, h]

theorem mapResP_inc {p : Parser α} {f : α → Option β} {i : Str} {n : Needed}
    (h : p i = .incomplete n) : mapResP p f i = .incomplete n := by
  simp [mapResP, h]

theorem optP_done {p : Parser α} {i r : Str} {o : α}
    (h : p i = .done r o) : optP p i = .done r (some o) := by
  simp [optP, h]

theorem optP_err {p : Parser α} {i : Str} {e : NomError}
    (h : p i = .error e) : optP p i = .done i none := by
  simp [optP, h]

theorem altP_nil {i : Str} : altP ([] : List (Parser α)) i = .error (.position .Alt i) := rfl

theorem altP_cons_err {p : Parser α} {ps : List (Parser α)} {i : Str} {e : NomError}
    (h : p i = .error e) : altP (p :: ps) i = altP ps i := by
  simp [altP, h]

theorem altP_cons_done {p : Parser α} {ps : List (Parser α)} {i r : Str} {o : α}
    (h : p i = .done r o) : altP (p :: ps) i = .done r o := by
  simp [altP, h]

theorem altP_cons_inc {p : Parser α} {ps : List (Parser α)} {i : Str} {n : Needed}
    (h : p i = .incomplete n) : altP (p :: ps) i = .incomplete n := by
  simp [altP, h]

theorem valueP_done {p : Parser α} {i r : Str} {o : α} (v : β)
    (h : p i = .done r o) : valueP v p i = .done r v := mapP_done h

theorem valueP_err {p : Parser α} {i : Str} {e : NomError} (v : β)
    (h : p i = .error e) : valueP v p i = .error e := mapP_err h

/-! ## tag, char, one_of, take -/

theorem tagP_exact (t rest : Str) : tagP t (t ++ rest) = .done rest t := by
  simp [tagP, List.take_left, List.drop_left]

theorem tagP_mismatch1 {a c : Char} (t : Str) (r : Str) (h : c ≠ a) :
    tagP (a :: t) (c :: r) = .error (.position .Tag (c :: r)) := by
  simp only [tagP, List.length_cons, List.take_succ_cons]
  rw [if_neg, if_neg]
  · intro he
    exact h (List.head_eq_of_cons_eq he)
  · intro he
    exact h (List.head_eq_of_cons_eq he)

theorem tagP_mismatch2 {a b c : Char} (r : Str) (h : c ≠ b) :
    tagP [a, b] (a :: c :: r) = .error (.position .Tag (a :: c :: r)) := by
  simp only [tagP, List.length_cons, List.length_nil, List.take_succ_cons]
  rw [if_neg, if_neg]
  · intro he
    exact h (List.head_eq_of_cons_eq (List.tail_eq_of_cons_eq he))
  · intro he
    exact h (List.head_eq_of_cons_eq (List.tail_eq_of_cons_eq he))

theorem charP_done {c : Char} (r : Str) : charP c (c :: r) = .done r c := by
  simp [charP]

theorem charP_mismatch {c x : Char} (r : Str) (h : x ≠ c) :
    charP c (x :: r) = .error (.position .Chr (x :: r)) := by
  simp [charP, h]

theorem oneOfP_done {cs : Str} {x : Char} (r : Str) (h : x ∈ cs) :
    oneOfP cs (x :: r) = .done r x := by
  simp [oneOfP, h]

theorem oneOfP_mismatch {cs : Str} {x : Char} (r : Str) (h : x ∉ cs) :
    oneOfP cs (x :: r) = .error (.position .OneOf (x :: r)) := by
  simp [oneOfP, h]

theorem takeP_two (a b : Char) (r : Str) : takeP 2 (a :: b :: r) = .done r [a, b] := by
  simp [takeP]

theorem takeP_three (a b c : Char) (r : Str) :
    takeP 3 (a :: b :: c :: r) = .done r [a, b, c] := by
  simp [takeP]

/-! ## Spanning lemmas for maximal runs -/

theorem takeWhile_append_all {p : Char → Bool} :
    ∀ (u w : Str), (∀ c ∈ u, p c = true) → (u ++ w).takeWhile p = u ++ w.takeWhile p := by
  intro u
  induction u with
  | nil => intro w _; simp
  | cons c u ih =>
    intro w hu
    have hc : p c = true := hu c (by simp)
    simp only [List.cons_append, List.takeWhile_cons, hc]
    rw [ih w (fun d hd => hu d (by simp [hd]))]
    simp

theorem dropWhile_append_all {p : Char → Bool} :
    ∀ (u w : Str), (∀ c ∈ u, p c = true) → (u ++ w).dropWhile p = w.dropWhile p := by
  intro u
  induction u with
  | nil => intro w _; simp
  | cons c u ih =>
    intro w hu
    have hc : p c = true := hu c (by simp)
    simp only [List.cons_append, List.dropWhile_cons, hc]
    exact ih w (fun d hd => hu d (by simp [hd]))

theorem takeWhile_of_headFails {p : Char → Bool} {w : Str}
    (hw : headFails p w = true) : w.takeWhile p = [] := by
  cases w with
  | nil => simp
  | cons c r =>
    simp only [headFails, Bool.not_eq_true'] at hw
    simp [List.takeWhile_cons, hw]

theorem dropWhile_of_headFails {p : Char → Bool} {w : Str}
    (hw : headFails p w = true) : w.dropWhile p = w := by
  cases w with
  | nil => simp
  | cons c r =>
    simp only [headFails, Bool.not_eq_true'] at hw
    simp [List.dropWhile_cons, hw]

theorem takeWhile_append_run {p : Char → Bool} {u w : Str}
    (hu : ∀ c ∈ u, p c = true) (hw : headFails p w = true) :
    (u ++ w).takeWhile p = u := by
  rw [takeWhile_append_all u w hu, takeWhile_of_headFails hw, List.append_nil]

theorem dropWhile_append_run {p : Char → Bool} {u w : Str}
    (hu : ∀ c ∈ u, p c = true) (hw : headFails p w = true) :
    (u ++ w).dropWhile p = w := by
  rw [dropWhile_append_all u w hu, dropWhile_of_headFails hw]

/-- A one-or-more class reader on a maximal nonempty run. -/
theorem classRun_done {p : Char → Bool} {k : ErrorKind} {u w : Str}
    (hne : u ≠ []) (hu : ∀ c ∈ u, p c = true) (hw : headFails p w = true) :
    classRun p k (u ++ w) = .done w u := by
  cases u with
  | nil => exact absurd rfl hne
  | cons c u' =>
    have hc : p c = true := hu c (by simp)
    simp only [classRun, List.cons_append, hc, if_pos]
    rw [← List.cons_append]
    rw [takeWhile_append_run hu hw, dropWhile_append_run hu hw]

theorem classRun_err {p : Char → Bool} {k : ErrorKind} {c : Char} (r : Str)
    (hc : p c = false) :
    classRun p k (c :: r) = .error (.position k (c :: r)) := by
  simp [classRun, hc]

/-- The head of what `dropWhile` leaves fails the predicate. -/
theorem headFails_dropWhile (p : Char → Bool) :
    ∀ l : Str, headFails p (l.dropWhile p) = true := by
  intro l
  induction l with
  | nil => simp [headFails]
  | cons c r ih =>
    by_cases hc : p c = true
    · simp only [List.dropWhile_cons, hc, if_pos]; exact ih
    · simp only [Bool.not_eq_true] at hc
      simp [List.dropWhile_cons, hc, headFails]

/-! ## Character-class arithmetic -/

theorem char_toNat_le {a b : Char} (h : a ≤ b) : a.toNat ≤ b.toNat := by
  rw [Char.le_def, UInt32.le_def] at h
  exact h

theorem isDecDigit_range {c : Char} (h : isDecDigit c = true) :
    48 ≤ c.toNat ∧ c.toNat ≤ 57 := by
  simp only [isDecDigit, Bool.and_eq_true, decide_eq_true_eq] at h
  have h1 := char_toNat_le h.1
  have h2 := char_toNat_le h.2
  rw [show ('0').toNat = 48 from by decide] at h1
  rw [show ('9').toNat = 57 from by decide] at h2
  exact ⟨h1, h2⟩

theorem rawDigit_of_dec {c : Char} (h : isDecDigit c = true) :
    rawDigit c = some (c.toNat - 48) := by
  simp only [isDecDigit, Bool.and_eq_true, decide_eq_true_eq] at h
  simp only [rawDigit, Bool.and_eq_true, decide_eq_true_eq]
  rw [if_pos ⟨h.1, h.2⟩, show ('0').toNat = 48 from by decide]

theorem digitVal_dec {c : Char} (h : isDecDigit c = true) :
    digitVal 10 c = some (c.toNat - 48) ∧ c.toNat - 48 < 10 := by
  have hr := isDecDigit_range h
  have hb : c.toNat - 48 < 10 := by omega
  refine ⟨?_, hb⟩
  simp [digitVal, rawDigit_of_dec h, hb]

theorem isOctDigit_dec {c : Char} (h : isOctDigit c = true) : isDecDigit c = true := by
  simp only [isOctDigit, Bool.and_eq_true, decide_eq_true_eq] at h
  simp only [isDecDigit, Bool.and_eq_true, decide_eq_true_eq]
  exact ⟨h.1, le_trans h.2 (by decide)⟩

theorem digitVal_oct {c : Char} (h : isOctDigit c = true) :
    digitVal 8 c = some (c.toNat - 48) ∧ c.toNat - 48 < 8 := by
  have hd : isDecDigit c = true := isOctDigit_dec h
  simp only [isOctDigit, Bool.and_eq_true, decide_eq_true_eq] at h
  have h7 := char_toNat_le h.2
  have h0 := char_toNat_le h.1
  rw [show ('7').toNat = 55 from by decide] at h7
  rw [show ('0').toNat = 48 from by decide] at h0
  have hb : c.toNat - 48 < 8 := by omega
  refine ⟨?_, hb⟩
  simp [digitVal, rawDigit_of_dec hd, hb]

theorem rawDigit_of_hex {c : Char} (h : isHexDig c = true) :
    ∃ d, rawDigit c = some d ∧ d < 16 := by
  simp only [isHexDig, Bool.or_eq_true, Bool.and_eq_true, decide_eq_true_eq] at h
  rcases h with (h | h) | h
  · refine ⟨c.toNat - 48, ?_, ?_⟩
    · simp only [rawDigit, Bool.and_eq_true, decide_eq_true_eq]
      rw [if_pos ⟨h.1, h.2⟩, show ('0').toNat = 48 from by decide]
    · have h2 := char_toNat_le h.2
      rw [show ('9').toNat = 57 from by decide] at h2
      omega
  · have ha := char_toNat_le h.1
    have hf := char_toNat_le h.2
    rw [show ('a').toNat = 97 from by decide] at ha
    rw [show ('f').toNat = 102 from by decide] at hf
    have hnd : ¬('0' ≤ c ∧ c ≤ '9') := by
      rintro ⟨_, h9⟩
      have h9n := char_toNat_le h9
      rw [show ('9').toNat = 57 from by decide] at h9n
      omega
    refine ⟨c.toNat - 97 + 10, ?_, ?_⟩
    · simp only [rawDigit, Bool.and_eq_true, decide_eq_true_eq]
      rw [if_neg hnd, if_pos ⟨h.1, le_trans h.2 (by decide)⟩,
        show ('a').toNat = 97 from by decide]
    · omega
  · have hA := char_toNat_le h.1
    have hF := char_toNat_le h.2
    rw [show ('A').toNat = 65 from by decide] at hA
    rw [show ('F').toNat = 70 from by decide] at hF
    have hnd : ¬('0' ≤ c ∧ c ≤ '9') := by
      rintro ⟨_, h9⟩
      have h9n := char_toNat_le h9
      rw [show ('9').toNat = 57 from by decide] at h9n
      omega
    have hnl : ¬('a' ≤ c ∧ c ≤ 'z') := by
      rintro ⟨ha2, _⟩
      have han := char_toNat_le ha2
      rw [show ('a').toNat = 97 from by decide] at han
      omega
    refine ⟨c.toNat - 65 + 10, ?_, ?_⟩
    · simp only [rawDigit, Bool.and_eq_true, decide_eq_true_eq]
      rw [if_neg hnd, if_neg hnl, if_pos ⟨h.1, le_trans h.2 (by decide)⟩,
        show ('A').toNat = 65 from by decide]
    · omega

theorem digitVal_hex {c : Char} (h : isHexDig c = true) :
    ∃ d, digitVal 16 c = some d := by
  obtain ⟨d, hd, hlt⟩ := rawDigit_of_hex h
  exact ⟨d, by simp [digitVal, hd, hlt]⟩

/-- A character with a digit value is not a sign character. -/
theorem not_sign_of_isDecDigit {c : Char} (h : isDecDigit c = true) :
    c ≠ '+' ∧ c ≠ '-' := by
  constructor
  · rintro rfl; exact absurd h (by decide)
  · rintro rfl; exact absurd h (by decide)

theorem not_sign_of_isOctDigit {c : Char} (h : isOctDigit c = true) :
    c ≠ '+' ∧ c ≠ '-' := not_sign_of_isDecDigit (isOctDigit_dec h)

theorem not_sign_of_isHexDig {c : Char} (h : isHexDig c = true) :
    c ≠ '+' ∧ c ≠ '-' := by
  constructor
  · rintro rfl; exact absurd h (by decide)
  · rintro rfl; exact absurd h (by decide)

/-! ## Digit-string values -/

theorem digitsVal_append (base : Nat) :
    ∀ (u w : Str) (acc : Nat),
      digitsVal base acc (u ++ w) = (digitsVal base acc u).bind (fun v => digitsVal base v w) := by
  intro u
  induction u with
  | nil => intro w acc; simp [digitsVal]
  | cons c u ih =>
    intro w acc
    simp only [List.cons_append, digitsVal]
    cases hd : digitVal base c with
    | none => simp
    | some d => simpa using ih w (acc * base + d)

theorem digitsVal_acc_le (base : Nat) (hb : 1 ≤ base) :
    ∀ (s : Str) (acc v : Nat), digitsVal base acc s = some v → acc ≤ v := by
  intro s
  induction s with
  | nil => intro acc v h; simp [digitsVal] at h; omega
  | cons c cs ih =>
    intro acc v h
    simp only [digitsVal] at h
    cases hd : digitVal base c with
    | none => rw [hd] at h; cases h
    | some d =>
      rw [hd] at h
      have h1 := ih (acc * base + d) v h
      have h2 : acc ≤ acc * base + d := by
        have := Nat.mul_le_mul_left acc hb
        omega
      omega

theorem digitsVal_dec_exists :
    ∀ (s : Str), (∀ c ∈ s, isDecDigit c = true) →
      ∀ acc, ∃ v, digitsVal 10 acc s = some v ∧ acc ≤ v := by
  intro s
  induction s with
  | nil => intro _ acc; exact ⟨acc, by simp [digitsVal], le_refl acc⟩
  | cons c cs ih =>
    intro hs acc
    have hc := digitVal_dec (hs c (by simp))
    obtain ⟨v, hv, hle⟩ := ih (fun d hd => hs d (by simp [hd])) (acc * 10 + (c.toNat - 48))
    refine ⟨v, ?_, ?_⟩
    · simp only [digitsVal, hc.1]; exact hv
    · have : acc ≤ acc * 10 + (c.toNat - 48) := by omega
      omega

theorem digitVal_lift_8_10 {c : Char} {d : Nat} (h : digitVal 8 c = some d) :
    digitVal 10 c = some d := by
  unfold digitVal at h ⊢
  cases hr : rawDigit c with
  | none => rw [hr] at h; cases h
  | some d0 =>
    rw [hr] at h
    have h' : (if d0 < 8 then some d0 else none) = some d := h
    show (if d0 < 10 then some d0 else none) = some d
    by_cases h8 : d0 < 8
    · rw [if_pos h8] at h'
      rw [if_pos (by omega : d0 < 10)]
      exact h'
    · rw [if_neg h8] at h'; cases h'

theorem digitsVal_oct_le_dec :
    ∀ (s : Str) (acc₁ acc₂ v₁ : Nat), acc₁ ≤ acc₂ →
      digitsVal 8 acc₁ s = some v₁ →
      ∃ v₂, digitsVal 10 acc₂ s = some v₂ ∧ v₁ ≤ v₂ := by
  intro s
  induction s with
  | nil =>
    intro acc₁ acc₂ v₁ hle h
    simp only [digitsVal, Option.some.injEq] at h
    subst h
    exact ⟨acc₂, by simp [digitsVal], hle⟩
  | cons c cs ih =>
    intro acc₁ acc₂ v₁ hle h
    simp only [digitsVal] at h ⊢
    cases hd : digitVal 8 c with
    | none => rw [hd] at h; cases h
    | some d =>
      rw [hd] at h
      rw [digitVal_lift_8_10 hd]
      have hstep : acc₁ * 8 + d ≤ acc₂ * 10 + d := by
        have : acc₁ * 8 ≤ acc₂ * 10 := by nlinarith
        omega
      exact ih (acc₁ * 8 + d) (acc₂ * 10 + d) v₁ hstep h

/-- `from_str_radix` on a string that does not begin with a plus sign. -/
theorem fromStrRadix_pos {bits base : Nat} {c : Char} {r : Str} {v : Nat}
    (hplus : c ≠ '+')
    (hv : digitsVal base 0 (c :: r) = some v) :
    fromStrRadix bits base (c :: r) = if v < 2 ^ bits then some v else none := by
  unfold fromStrRadix
  simp only [if_neg hplus]
  simp [hv]

/-! ## Derived facts about the primitive byte readers -/

theorem hex_byte_two {a b : Char} {v : Nat} (r : Str)
    (hv : fromStrRadix 8 16 [a, b] = some v) : hex_byte (a :: b :: r) = .done r v :=
  mapResP_done (takeP_two a b r) hv

theorem dec_byte_ok {u w : Str} {v : Nat} (hne : u ≠ [])
    (hu : ∀ c ∈ u, isDecDigit c = true) (hw : headFails isDecDigit w = true)
    (hv : digitsVal 10 0 u = some v) (hlt : v < 256) :
    dec_byte (u ++ w) = .done w v := by
  cases u with
  | nil => exact absurd rfl hne
  | cons c r =>
    have hsign := not_sign_of_isDecDigit (hu c (by simp))
    have hfrom : fromStrRadix 8 10 (c :: r) = some v := by
      rw [fromStrRadix_pos hsign.1 hv, if_pos (by omega : v < 2 ^ 8)]
    exact mapResP_done (classRun_done hne hu hw) hfrom

theorem dec_byte_overflow {u w : Str} {v : Nat} (hne : u ≠ [])
    (hu : ∀ c ∈ u, isDecDigit c = true) (hw : headFails isDecDigit w = true)
    (hv : digitsVal 10 0 u = some v) (hge : 256 ≤ v) :
    dec_byte (u ++ w) = .error (.position .MapRes (u ++ w)) := by
  cases u with
  | nil => exact absurd rfl hne
  | cons c r =>
    have hsign := not_sign_of_isDecDigit (hu c (by simp))
    have hfrom : fromStrRadix 8 10 (c :: r) = none := by
      rw [fromStrRadix_pos hsign.1 hv, if_neg (by omega : ¬ v < 2 ^ 8)]
    exact mapResP_none (classRun_done hne hu hw) hfrom

theorem precededP_err {p : Parser α} {q : Parser β} {i : Str} {e : NomError}
    (h : p i = .error e) : precededP p q i = .error e := seqP_err h

theorem precededP_done_err {p : Parser α} {q : Parser β} {i i1 : Str} {o : α} {e : NomError}
    (h1 : p i = .done i1 o) (h2 : q i1 = .error e) : precededP p q i = .error e :=
  seqP_done_err h1 h2

theorem precededP_done_done {p : Parser α} {q : Parser β} {i i1 i2 : Str} {o : α} {o2 : β}
    (h1 : p i = .done i1 o) (h2 : q i1 = .done i2 o2) : precededP p q i = .done i2 o2 :=
  seqP_done_done h1 h2

theorem precededP_inc {p : Parser α} {q : Parser β} {i : Str} {n : Needed}
    (h : p i = .incomplete n) : precededP p q i = .incomplete n := seqP_inc h

theorem tagP_single (c : Char) (x : Str) : tagP [c] (c :: x) = .done x [c] := by
  simpa using tagP_exact [c] x

theorem digit_done {u w : Str} (hne : u ≠ []) (hu : ∀ c ∈ u, isDecDigit c = true)
    (hw : headFails isDecDigit w = true) : digit (u ++ w) = .done w u :=
  classRun_done hne hu hw

theorem hex_digit_done {u w : Str} (hne : u ≠ []) (hu : ∀ c ∈ u, isHexDig c = true)
    (hw : headFails isHexDig w = true) : hex_digit (u ++ w) = .done w u :=
  classRun_done hne hu hw

theorem oct_digit_done {u w : Str} (hne : u ≠ []) (hu : ∀ c ∈ u, isOctDigit c = true)
    (hw : headFails isOctDigit w = true) : oct_digit (u ++ w) = .done w u :=
  classRun_done hne hu hw

theorem alpha_done {u w : Str} (hne : u ≠ []) (hu : ∀ c ∈ u, isAlphaChar c = true)
    (hw : headFails isAlphaChar w = true) : alpha (u ++ w) = .done w u :=
  classRun_done hne hu hw

/-! ## Claim C1 -/

/-- The decimal fallback consumes just the zero when the character after
a leading `0` is neither a digit nor `x`. -/
theorem parse_unsigned_zero_nondigit (c : Char) (rest : Str)
    (hc : isDecDigit c = false) (hx : c ≠ 'x') :
    parse_unsigned ('0' :: c :: rest) = .done (c :: rest) 0 := by
  have hoct : isOctDigit c = false := by
    cases ho : isOctDigit c
    · rfl
    · exact absurd (isOctDigit_dec ho) (by simp [hc])
  have h1 : precededP (tagP ['0', 'x']) (mapResP hex_digit (fromStrRadix 64 16))
      ('0' :: c :: rest) = .error (.position .Tag ('0' :: c :: rest)) :=
    precededP_err (tagP_mismatch2 rest hx)
  have h2 : precededP (tagP ['0']) (mapResP oct_digit (fromStrRadix 64 8))
      ('0' :: c :: rest) = .error (.position .OctDigit (c :: rest)) :=
    precededP_done_err (tagP_single '0' (c :: rest)) (mapResP_err (classRun_err rest hoct))
  have hdig : digit ('0' :: c :: rest) = .done (c :: rest) ['0'] := by
    have he : ('0' :: c :: rest) = ['0'] ++ (c :: rest) := rfl
    rw [he]
    exact digit_done (by simp)
      (by intro d hd; simp at hd; subst hd; decide)
      (by simp [headFails, hc])
  have h3 : mapResP digit (fromStrRadix 64 10) ('0' :: c :: rest) = .done (c :: rest) 0 :=
    mapResP_done hdig (by decide)
  show altP _ ('0' :: c :: rest) = _
  rw [altP_cons_err h1, altP_cons_err h2, altP_cons_done h3]

/-- C1: the unsigned scanner tries hex, then octal, then decimal, giving
the three documented example results.  The bare-zero sentence is amended:
a `0` followed by a character that is neither a digit nor `x` is consumed
by the decimal path as value 0, but `"08;"` is consumed wholly by the
decimal path as 8 (8 is not an octal digit, yet it extends the decimal
run), and the input `"0"` alone is an incomplete signal because it is a
proper prefix of the hex tag `0x`. -/
theorem C1_unsigned_alternative_order :
    parse_unsigned ("0x1f5+".data) = .done ("+".data) 501 ∧
    parse_unsigned ("0123;".data) = .done (";".data) 83 ∧
    parse_unsigned ("78!".data) = .done ("!".data) 78 ∧
    (∀ (c : Char) (rest : Str), isDecDigit c = false → c ≠ 'x' →
      parse_unsigned ('0' :: c :: rest) = .done (c :: rest) 0) ∧
    parse_unsigned ("08;".data) = .done (";".data) 8 ∧
    parse_unsigned ("0".data) = .incomplete (.size 2) :=
  ⟨by decide, by decide, by decide,
    fun c rest hc hx => parse_unsigned_zero_nondigit c rest hc hx,
    by decide, by decide⟩

/-- C1 witness: the amended universal applied at `"0;"`. -/
theorem C1_unsigned_alternative_order_witness :
    isDecDigit ';' = false ∧ (';' : Char) ≠ 'x' ∧
    parse_unsigned ['0', ';'] = .done [';'] 0 :=
  ⟨by decide, by decide,
    C1_unsigned_alternative_order.2.2.2.1 ';' [] (by decide) (by decide)⟩

/-- C1 counterexample: on `"08;"` the scanner does not consume just the
zero with value 0 (as the claim's bare-zero sentence demands, `'8'` not
being an octal digit); the decimal path reads the whole run `08` as 8.
On the input `"0"` itself the scanner is incomplete, not a success. -/
theorem C1_unsigned_bare_zero_counterexample :
    parse_unsigned ("08;".data) = .done (";".data) 8 ∧
    parse_unsigned ("08;".data) ≠ .done ("8;".data) 0 ∧
    parse_unsigned ("0".data) = .incomplete (.size 2) := by
  refine ⟨by decide, by decide, by decide⟩

/-! ## Claim C2 -/

/-- A leading-zero octal literal whose octal value overflows 64 bits
fails the octal branch with `MapRes`, and the decimal fallback (which
reads at least the same digits in base 10, hence a value at least as
large) overflows as well, so the whole `alt!` fails. -/
theorem parse_unsigned_oct_overflow (c0 : Char) (r' rest : Str) (v : Nat)
    (hr : ∀ c ∈ (c0 :: r'), isOctDigit c = true)
    (hrest : headFails isOctDigit rest = true)
    (hv : digitsVal 8 0 (c0 :: r') = some v) (hbig : 2 ^ 64 ≤ v) :
    parse_unsigned ('0' :: c0 :: (r' ++ rest)) =
      .error (.position .Alt ('0' :: c0 :: (r' ++ rest))) := by
  have hc0 : isOctDigit c0 = true := hr c0 (by simp)
  have hc0x : c0 ≠ 'x' := by rintro rfl; exact absurd hc0 (by decide)
  have hsign := not_sign_of_isOctDigit hc0
  have h1 : precededP (tagP ['0', 'x']) (mapResP hex_digit (fromStrRadix 64 16))
      ('0' :: c0 :: (r' ++ rest)) = .error (.position .Tag ('0' :: c0 :: (r' ++ rest))) :=
    precededP_err (tagP_mismatch2 (r' ++ rest) hc0x)
  have hoctd : oct_digit (c0 :: (r' ++ rest)) = .done rest (c0 :: r') := by
    have := oct_digit_done (u := c0 :: r') (w := rest) (by simp) hr hrest
    simpa using this
  have hfrom8 : fromStrRadix 64 8 (c0 :: r') = none := by
    rw [fromStrRadix_pos hsign.1 hv, if_neg (by omega : ¬ v < 2 ^ 64)]
  have h2 : precededP (tagP ['0']) (mapResP oct_digit (fromStrRadix 64 8))
      ('0' :: c0 :: (r' ++ rest)) = .error (.position .MapRes (c0 :: (r' ++ rest))) :=
    precededP_done_err (tagP_single '0' (c0 :: (r' ++ rest))) (mapResP_none hoctd hfrom8)
  have hdec_run : ∀ c ∈ (c0 :: r'), isDecDigit c = true :=
    fun c hc => isOctDigit_dec (hr c hc)
  have h00 : isDecDigit '0' = true := by decide
  have hdig : digit ('0' :: c0 :: (r' ++ rest)) =
      .done (rest.dropWhile isDecDigit)
        ('0' :: c0 :: (r' ++ rest.takeWhile isDecDigit)) := by
    have htake := takeWhile_append_all (p := isDecDigit) (c0 :: r') rest hdec_run
    have hdrop := dropWhile_append_all (p := isDecDigit) (c0 :: r') rest hdec_run
    simp only [List.cons_append] at htake hdrop
    show classRun isDecDigit .Digit ('0' :: c0 :: (r' ++ rest)) = _
    simp only [classRun]
    rw [if_pos h00, List.takeWhile_cons, List.dropWhile_cons, if_pos h00, if_pos h00]
    rw [htake, hdrop]
  have hshape : ('0' :: c0 :: (r' ++ rest.takeWhile isDecDigit)) =
      '0' :: ((c0 :: r') ++ rest.takeWhile isDecDigit) := by simp
  have hvd : ∃ v3, digitsVal 10 0 ('0' :: c0 :: (r' ++ rest.takeWhile isDecDigit)) =
      some v3 ∧ 2 ^ 64 ≤ v3 := by
    obtain ⟨v2, hv2, hle2⟩ := digitsVal_oct_le_dec (c0 :: r') 0 0 v (le_refl 0) hv
    obtain ⟨v3, hv3, hle3⟩ := digitsVal_dec_exists (rest.takeWhile isDecDigit)
      (fun c hc => List.mem_takeWhile_imp hc) v2
    refine ⟨v3, ?_, by omega⟩
    rw [hshape]
    have h0 : digitsVal 10 0 ('0' :: ((c0 :: r') ++ rest.takeWhile isDecDigit)) =
        digitsVal 10 0 ((c0 :: r') ++ rest.takeWhile isDecDigit) := by
      simp only [digitsVal, show digitVal 10 '0' = some 0 from by decide]
    rw [h0, digitsVal_append, hv2]
    simpa using hv3
  obtain ⟨v3, hv3, hbig3⟩ := hvd
  have hfrom10 : fromStrRadix 64 10
      ('0' :: c0 :: (r' ++ rest.takeWhile isDecDigit)) = none := by
    rw [fromStrRadix_pos (by decide) hv3, if_neg (by omega : ¬ v3 < 2 ^ 64)]
  have h3 : mapResP digit (fromStrRadix 64 10) ('0' :: c0 :: (r' ++ rest)) =
      .error (.position .MapRes ('0' :: c0 :: (r' ++ rest))) :=
    mapResP_none hdig hfrom10
  show altP _ ('0' :: c0 :: (r' ++ rest)) = _
  rw [altP_cons_err h1, altP_cons_err h2, altP_cons_err h3, altP_nil]

/-- A decimal literal (not starting with `0`) whose value overflows
64 bits makes every branch fail. -/
theorem parse_unsigned_dec_overflow (c0 : Char) (r' rest : Str) (v : Nat)
    (hc0 : c0 ≠ '0')
    (hr : ∀ c ∈ (c0 :: r'), isDecDigit c = true)
    (hrest : headFails isDecDigit rest = true)
    (hv : digitsVal 10 0 (c0 :: r') = some v) (hbig : 2 ^ 64 ≤ v) :
    parse_unsigned (c0 :: (r' ++ rest)) = .error (.position .Alt (c0 :: (r' ++ rest))) := by
  have hsign := not_sign_of_isDecDigit (hr c0 (by simp))
  have h1 : precededP (tagP ['0', 'x']) (mapResP hex_digit (fromStrRadix 64 16))
      (c0 :: (r' ++ rest)) = .error (.position .Tag (c0 :: (r' ++ rest))) :=
    precededP_err (tagP_mismatch1 ['x'] (r' ++ rest) hc0)
  have h2 : precededP (tagP ['0']) (mapResP oct_digit (fromStrRadix 64 8))
      (c0 :: (r' ++ rest)) = .error (.position .Tag (c0 :: (r' ++ rest))) :=
    precededP_err (tagP_mismatch1 [] (r' ++ rest) hc0)
  have hdigd : digit (c0 :: (r' ++ rest)) = .done rest (c0 :: r') := by
    have := digit_done (u := c0 :: r') (w := rest) (by simp) hr hrest
    simpa using this
  have hfrom10 : fromStrRadix 64 10 (c0 :: r') = none := by
    rw [fromStrRadix_pos hsign.1 hv, if_neg (by omega : ¬ v < 2 ^ 64)]
  have h3 : mapResP digit (fromStrRadix 64 10) (c0 :: (r' ++ rest)) =
      .error (.position .MapRes (c0 :: (r' ++ rest))) :=
    mapResP_none hdigd hfrom10
  show altP _ (c0 :: (r' ++ rest)) = _
  rw [altP_cons_err h1, altP_cons_err h2, altP_cons_err h3, altP_nil]

/-- A zero-leading digit run whose character after the `0` is a decimal
but not an octal digit (`8` or `9`) is not an octal literal: the octal
branch errors at that character, and the decimal branch reads the whole
run, failing on overflow, so the whole `alt!` fails. -/
theorem parse_unsigned_zero_dec_overflow (c0 : Char) (r' rest : Str) (v : Nat)
    (hc0d : isDecDigit c0 = true) (hc0o : isOctDigit c0 = false)
    (hr : ∀ c ∈ (c0 :: r'), isDecDigit c = true)
    (hrest : headFails isDecDigit rest = true)
    (hv : digitsVal 10 0 (c0 :: r') = some v) (hbig : 2 ^ 64 ≤ v) :
    parse_unsigned ('0' :: c0 :: (r' ++ rest)) =
      .error (.position .Alt ('0' :: c0 :: (r' ++ rest))) := by
  have hc0x : c0 ≠ 'x' := by rintro rfl; exact absurd hc0d (by decide)
  have h1 : precededP (tagP ['0', 'x']) (mapResP hex_digit (fromStrRadix 64 16))
      ('0' :: c0 :: (r' ++ rest)) = .error (.position .Tag ('0' :: c0 :: (r' ++ rest))) :=
    precededP_err (tagP_mismatch2 (r' ++ rest) hc0x)
  have h2 : precededP (tagP ['0']) (mapResP oct_digit (fromStrRadix 64 8))
      ('0' :: c0 :: (r' ++ rest)) = .error (.position .OctDigit (c0 :: (r' ++ rest))) :=
    precededP_done_err (tagP_single '0' (c0 :: (r' ++ rest)))
      (mapResP_err (classRun_err (r' ++ rest) hc0o))
  have hall : ∀ c ∈ ('0' :: c0 :: r'), isDecDigit c = true := by
    intro c hc
    rcases List.mem_cons.mp hc with h | h
    · subst h; decide
    · exact hr c h
  have hdigd : digit ('0' :: c0 :: (r' ++ rest)) = .done rest ('0' :: c0 :: r') := by
    have := digit_done (u := '0' :: c0 :: r') (w := rest) (by simp) hall hrest
    simpa using this
  have hv0 : digitsVal 10 0 ('0' :: c0 :: r') = some v := by
    have hstep : digitsVal 10 0 ('0' :: c0 :: r') = digitsVal 10 (0 * 10 + 0) (c0 :: r') := rfl
    simpa [hstep] using hv
  have hfrom10 : fromStrRadix 64 10 ('0' :: c0 :: r') = none := by
    rw [fromStrRadix_pos (by decide) hv0, if_neg (by omega : ¬ v < 2 ^ 64)]
  have h3 : mapResP digit (fromStrRadix 64 10) ('0' :: c0 :: (r' ++ rest)) =
      .error (.position .MapRes ('0' :: c0 :: (r' ++ rest))) :=
    mapResP_none hdigd hfrom10
  show altP _ ('0' :: c0 :: (r' ++ rest)) = _
  rw [altP_cons_err h1, altP_cons_err h2, altP_cons_err h3, altP_nil]

/-- A hex literal whose value overflows 64 bits does *not* make the
scanner fail: the hex branch errors, the octal branch errors at `x`, and
the decimal branch succeeds consuming just the `0` with value 0. -/
theorem parse_unsigned_hex_overflow (c0 : Char) (r' rest : Str) (v : Nat)
    (hr : ∀ c ∈ (c0 :: r'), isHexDig c = true)
    (hrest : headFails isHexDig rest = true)
    (hv : digitsVal 16 0 (c0 :: r') = some v) (hbig : 2 ^ 64 ≤ v) :
    parse_unsigned ('0' :: 'x' :: c0 :: (r' ++ rest)) =
      .done ('x' :: c0 :: (r' ++ rest)) 0 := by
  have hsign := not_sign_of_isHexDig (hr c0 (by simp))
  have htag : tagP ['0', 'x'] ('0' :: 'x' :: c0 :: (r' ++ rest)) =
      .done (c0 :: (r' ++ rest)) ['0', 'x'] := by
    simpa using tagP_exact ['0', 'x'] (c0 :: (r' ++ rest))
  have hhexd : hex_digit (c0 :: (r' ++ rest)) = .done rest (c0 :: r') := by
    have := hex_digit_done (u := c0 :: r') (w := rest) (by simp) hr hrest
    simpa using this
  have hfrom16 : fromStrRadix 64 16 (c0 :: r') = none := by
    rw [fromStrRadix_pos hsign.1 hv, if_neg (by omega : ¬ v < 2 ^ 64)]
  have h1 : precededP (tagP ['0', 'x']) (mapResP hex_digit (fromStrRadix 64 16))
      ('0' :: 'x' :: c0 :: (r' ++ rest)) = .error (.position .MapRes (c0 :: (r' ++ rest))) :=
    precededP_done_err htag (mapResP_none hhexd hfrom16)
  have h2 : precededP (tagP ['0']) (mapResP oct_digit (fromStrRadix 64 8))
      ('0' :: 'x' :: c0 :: (r' ++ rest)) =
      .error (.position .OctDigit ('x' :: c0 :: (r' ++ rest))) :=
    precededP_done_err (tagP_single '0' ('x' :: c0 :: (r' ++ rest)))
      (mapResP_err (classRun_err (c0 :: (r' ++ rest)) (by decide)))
  have hxf : isDecDigit 'x' = false := by decide
  have hdig : digit ('0' :: 'x' :: c0 :: (r' ++ rest)) =
      .done ('x' :: c0 :: (r' ++ rest)) ['0'] := by
    have he : ('0' :: 'x' :: c0 :: (r' ++ rest)) = ['0'] ++ ('x' :: c0 :: (r' ++ rest)) := rfl
    rw [he]
    exact digit_done (by simp)
      (by intro d hd; simp at hd; subst hd; decide)
      (by simp [headFails, hxf])
  have h3 : mapResP digit (fromStrRadix 64 10) ('0' :: 'x' :: c0 :: (r' ++ rest)) =
      .done ('x' :: c0 :: (r' ++ rest)) 0 :=
    mapResP_done hdig (by decide)
  show altP _ ('0' :: 'x' :: c0 :: (r' ++ rest)) = _
  rw [altP_cons_err h1, altP_cons_err h2, altP_cons_done h3]

/-- An input starting with a non-digit matches no branch. -/
theorem parse_unsigned_nomatch (c : Char) (rest : Str) (hc : isDecDigit c = false) :
    parse_unsigned (c :: rest) = .error (.position .Alt (c :: rest)) := by
  have hc0 : c ≠ '0' := by rintro rfl; exact absurd hc (by decide)
  have h1 : precededP (tagP ['0', 'x']) (mapResP hex_digit (fromStrRadix 64 16))
      (c :: rest) = .error (.position .Tag (c :: rest)) :=
    precededP_err (tagP_mismatch1 ['x'] rest hc0)
  have h2 : precededP (tagP ['0']) (mapResP oct_digit (fromStrRadix 64 8))
      (c :: rest) = .error (.position .Tag (c :: rest)) :=
    precededP_err (tagP_mismatch1 [] rest hc0)
  have h3 : mapResP digit (fromStrRadix 64 10) (c :: rest) =
      .error (.position .Digit (c :: rest)) :=
    mapResP_err (classRun_err rest hc)
  show altP _ (c :: rest) = _
  rw [altP_cons_err h1, altP_cons_err h2, altP_cons_err h3, altP_nil]

/-- C2, amended.  Octal and decimal literals exceeding the unsigned
64-bit range do make `parse_unsigned` fail (the overflowing `map_res!`
branches error and `alt!` reports an `Alt` error at the whole input);
this covers zero-leading decimal runs as well: a run beginning `08` or
`09` is no octal literal, so the decimal branch reads the whole run and
overflow fails the parse.  Nonempty inputs starting with no numeric form
fail with the `Alt` (NoMatch) error.  The hex half of the claim is false
and is corrected: a hex literal exceeding the range does not fail — the
hex branch's overflow error makes `alt!` fall through to the decimal
branch, which succeeds with value 0 consuming only the leading `0`. -/
theorem C2_unsigned_overflow_and_nomatch :
    (∀ (c0 : Char) (r' rest : Str) (v : Nat), (∀ c ∈ (c0 :: r'), isOctDigit c = true) →
      headFails isOctDigit rest = true → digitsVal 8 0 (c0 :: r') = some v → 2 ^ 64 ≤ v →
      parse_unsigned ('0' :: c0 :: (r' ++ rest)) =
        .error (.position .Alt ('0' :: c0 :: (r' ++ rest)))) ∧
    (∀ (c0 : Char) (r' rest : Str) (v : Nat), isDecDigit c0 = true → isOctDigit c0 = false →
      (∀ c ∈ (c0 :: r'), isDecDigit c = true) →
      headFails isDecDigit rest = true → digitsVal 10 0 (c0 :: r') = some v → 2 ^ 64 ≤ v →
      parse_unsigned ('0' :: c0 :: (r' ++ rest)) =
        .error (.position .Alt ('0' :: c0 :: (r' ++ rest)))) ∧
    (∀ (c0 : Char) (r' rest : Str) (v : Nat), c0 ≠ '0' →
      (∀ c ∈ (c0 :: r'), isDecDigit c = true) →
      headFails isDecDigit rest = true → digitsVal 10 0 (c0 :: r') = some v → 2 ^ 64 ≤ v →
      parse_unsigned (c0 :: (r' ++ rest)) = .error (.position .Alt (c0 :: (r' ++ rest)))) ∧
    (∀ (c0 : Char) (r' rest : Str) (v : Nat), (∀ c ∈ (c0 :: r'), isHexDig c = true) →
      headFails isHexDig rest = true → digitsVal 16 0 (c0 :: r') = some v → 2 ^ 64 ≤ v →
      parse_unsigned ('0' :: 'x' :: c0 :: (r' ++ rest)) =
        .done ('x' :: c0 :: (r' ++ rest)) 0) ∧
    (∀ (c : Char) (rest : Str), isDecDigit c = false →
      parse_unsigned (c :: rest) = .error (.position .Alt (c :: rest))) :=
  ⟨parse_unsigned_oct_overflow, parse_unsigned_zero_dec_overflow,
    parse_unsigned_dec_overflow, parse_unsigned_hex_overflow, parse_unsigned_nomatch⟩

/-- C2 witness: each amended case at a concrete input — a 22-digit
octal overflow, a 21-digit zero-leading decimal overflow (`089…9`), a
20-digit decimal overflow, a 17-digit hex overflow (which succeeds with
value 0), and a letter input. -/
theorem C2_unsigned_overflow_and_nomatch_witness :
    parse_unsigned ('0' :: '7' :: (List.replicate 21 '7' ++ [])) =
      .error (.position .Alt ('0' :: '7' :: (List.replicate 21 '7' ++ []))) ∧
    parse_unsigned ('0' :: '8' :: (List.replicate 19 '9' ++ [])) =
      .error (.position .Alt ('0' :: '8' :: (List.replicate 19 '9' ++ []))) ∧
    parse_unsigned ('9' :: (List.replicate 19 '9' ++ [])) =
      .error (.position .Alt ('9' :: (List.replicate 19 '9' ++ []))) ∧
    parse_unsigned ('0' :: 'x' :: 'f' :: (List.replicate 16 'f' ++ [])) =
      .done ('x' :: 'f' :: (List.replicate 16 'f' ++ [])) 0 ∧
    parse_unsigned ('z' :: ['y']) = .error (.position .Alt ('z' :: ['y'])) :=
  ⟨C2_unsigned_overflow_and_nomatch.1 '7' (List.replicate 21 '7') [] (8 ^ 22 - 1)
      (by decide) (by decide) (by decide) (by decide),
    C2_unsigned_overflow_and_nomatch.2.1 '8' (List.replicate 19 '9') [] (9 * 10 ^ 19 - 1)
      (by decide) (by decide) (by decide) (by decide) (by decide) (by decide),
    C2_unsigned_overflow_and_nomatch.2.2.1 '9' (List.replicate 19 '9') [] (10 ^ 20 - 1)
      (by decide) (by decide) (by decide) (by decide) (by decide),
    C2_unsigned_overflow_and_nomatch.2.2.2.1 'f' (List.replicate 16 'f') [] (16 ^ 17 - 1)
      (by decide) (by decide) (by decide) (by decide),
    C2_unsigned_overflow_and_nomatch.2.2.2.2 'z' ['y'] (by decide)⟩

/-- C2 counterexample: a hex literal denoting exactly `2^64` does not
fail with an overflow error; the scanner succeeds with value 0 and
remainder `x10000000000000000`. -/
theorem C2_unsigned_hex_overflow_counterexample :
    parse_unsigned ("0x10000000000000000".data) = .done ("x10000000000000000".data) 0 ∧
    (parse_unsigned ("0x10000000000000000".data)).isError = false := by
  refine ⟨by decide, by decide⟩

/-! ## Claim C3 -/

theorem parse_operator_ge (rest : Str) :
    parse_operator ('>' :: '=' :: rest) = .done rest .GreaterThanEqual := by
  have h1 : valueP Operator.Equal (tagP ['=', '=']) ('>' :: '=' :: rest) =
      .error (.position .Tag ('>' :: '=' :: rest)) :=
    valueP_err _ (tagP_mismatch1 ['='] ('=' :: rest) (by decide))
  have h2 : valueP Operator.NotEqual (tagP ['!', '=']) ('>' :: '=' :: rest) =
      .error (.position .Tag ('>' :: '=' :: rest)) :=
    valueP_err _ (tagP_mismatch1 ['='] ('=' :: rest) (by decide))
  have h3 : valueP Operator.GreaterThanEqual (tagP ['>', '=']) ('>' :: '=' :: rest) =
      .done rest .GreaterThanEqual :=
    valueP_done _ (by simpa using tagP_exact ['>', '='] rest)
  show altP _ ('>' :: '=' :: rest) = _
  rw [altP_cons_err h1, altP_cons_err h2, altP_cons_done h3]

/-- An input whose first character matches none of the tag heads fails
every branch. -/
theorem parse_operator_headMismatch (c : Char) (r : Str)
    (h1 : c ≠ '=') (h2 : c ≠ '!') (h3 : c ≠ '>') (h4 : c ≠ '<')
    (h5 : c ≠ '~') (h6 : c ≠ '&') :
    parse_operator (c :: r) = .error (.position .Alt (c :: r)) := by
  show altP _ (c :: r) = _
  rw [altP_cons_err (valueP_err _ (tagP_mismatch1 ['='] r h1)),
    altP_cons_err (valueP_err _ (tagP_mismatch1 ['='] r h2)),
    altP_cons_err (valueP_err _ (tagP_mismatch1 ['='] r h3)),
    altP_cons_err (valueP_err _ (tagP_mismatch1 ['='] r h4)),
    altP_cons_err (valueP_err _ (tagP_mismatch1 [] r h3)),
    altP_cons_err (valueP_err _ (tagP_mismatch1 [] r h4)),
    altP_cons_err (valueP_err _ (tagP_mismatch1 [] r h5)),
    altP_cons_err (valueP_err _ (tagP_mismatch1 [] r h6)),
    altP_nil]

/-- Amended NoMatch case: an input starting with none of the eight tags
fails with `Alt`, unless it is one of the truncated tag prefixes
(`""`, `"="`, `"!"`), which are incomplete instead. -/
theorem parse_operator_nomatch (s : Str) (hne : s ≠ []) (hne1 : s ≠ ['='])
    (hne2 : s ≠ ['!']) (htags : ∀ t ∈ opTags, s.take t.length ≠ t) :
    parse_operator s = .error (.position .Alt s) := by
  obtain ⟨c, r, rfl⟩ : ∃ c r, s = c :: r := by
    cases s
    · exact absurd rfl hne
    · exact ⟨_, _, rfl⟩
  have hgt : c ≠ '>' := by
    intro hc
    apply htags ['>'] (by simp [opTags])
    subst hc
    simp
  have hlt : c ≠ '<' := by
    intro hc
    apply htags ['<'] (by simp [opTags])
    subst hc
    simp
  have htl : c ≠ '~' := by
    intro hc
    apply htags ['~'] (by simp [opTags])
    subst hc
    simp
  have hamp : c ≠ '&' := by
    intro hc
    apply htags ['&'] (by simp [opTags])
    subst hc
    simp
  by_cases hce : c = '='
  · subst hce
    obtain ⟨c2, r2, rfl⟩ : ∃ c2 r2, r = c2 :: r2 := by
      cases r
      · exact absurd rfl hne1
      · exact ⟨_, _, rfl⟩
    have hc2 : c2 ≠ '=' := by
      intro hc
      apply htags ['=', '='] (by simp [opTags])
      subst hc
      simp
    show altP _ ('=' :: c2 :: r2) = _
    rw [altP_cons_err (valueP_err _ (tagP_mismatch2 r2 hc2)),
      altP_cons_err (valueP_err _ (tagP_mismatch1 ['='] (c2 :: r2) (by decide))),
      altP_cons_err (valueP_err _ (tagP_mismatch1 ['='] (c2 :: r2) (by decide))),
      altP_cons_err (valueP_err _ (tagP_mismatch1 ['='] (c2 :: r2) (by decide))),
      altP_cons_err (valueP_err _ (tagP_mismatch1 [] (c2 :: r2) (by decide))),
      altP_cons_err (valueP_err _ (tagP_mismatch1 [] (c2 :: r2) (by decide))),
      altP_cons_err (valueP_err _ (tagP_mismatch1 [] (c2 :: r2) (by decide))),
      altP_cons_err (valueP_err _ (tagP_mismatch1 [] (c2 :: r2) (by decide))),
      altP_nil]
  · by_cases hcb : c = '!'
    · subst hcb
      obtain ⟨c2, r2, rfl⟩ : ∃ c2 r2, r = c2 :: r2 := by
        cases r
        · exact absurd rfl hne2
        · exact ⟨_, _, rfl⟩
      have hc2 : c2 ≠ '=' := by
        intro hc
        apply htags ['!', '='] (by simp [opTags])
        subst hc
        simp
      show altP _ ('!' :: c2 :: r2) = _
      rw [altP_cons_err (valueP_err _ (tagP_mismatch1 ['='] (c2 :: r2) (by decide))),
        altP_cons_err (valueP_err _ (tagP_mismatch2 r2 hc2)),
        altP_cons_err (valueP_err _ (tagP_mismatch1 ['='] (c2 :: r2) (by decide))),
        altP_cons_err (valueP_err _ (tagP_mismatch1 ['='] (c2 :: r2) (by decide))),
        altP_cons_err (valueP_err _ (tagP_mismatch1 [] (c2 :: r2) (by decide))),
        altP_cons_err (valueP_err _ (tagP_mismatch1 [] (c2 :: r2) (by decide))),
        altP_cons_err (valueP_err _ (tagP_mismatch1 [] (c2 :: r2) (by decide))),
        altP_cons_err (valueP_err _ (tagP_mismatch1 [] (c2 :: r2) (by decide))),
        altP_nil]
    · exact parse_operator_headMismatch c r hce hcb hgt hlt htl hamp

/-- C3, amended.  The operator tags are tried in the fixed source order
with first match winning, so every input beginning with `>=` yields
`GreaterThanEqual` with the rest as remainder, and `">=2"` in
particular.  An input starting with none of the eight tags fails with
the `Alt` (NoMatch) error — except the truncated tag prefixes `""`,
`"="` and `"!"`, on which the scanner returns an incomplete signal
(nom's `tag!` reports `Incomplete` on a proper prefix and `alt!` stops
at the first incomplete branch). -/
theorem C3_operator_tag_order :
    (∀ rest : Str, parse_operator ('>' :: '=' :: rest) = .done rest .GreaterThanEqual) ∧
    parse_operator (">=2".data) = .done ("2".data) .GreaterThanEqual ∧
    (∀ s : Str, s ≠ [] → s ≠ ['='] → s ≠ ['!'] →
      (∀ t ∈ opTags, s.take t.length ≠ t) →
      parse_operator s = .error (.position .Alt s)) ∧
    parse_operator ("xyz".data) = .error (.position .Alt ("xyz".data)) ∧
    parse_operator ([] : Str) = .incomplete (.size 2) ∧
    parse_operator ("=".data) = .incomplete (.size 2) ∧
    parse_operator ("!".data) = .incomplete (.size 2) :=
  ⟨parse_operator_ge, by decide, parse_operator_nomatch, by decide, by decide,
    by decide, by decide⟩

/-- C3 witness: the NoMatch universal applied at `"xy"`. -/
theorem C3_operator_tag_order_witness :
    parse_operator ['x', 'y'] = .error (.position .Alt ['x', 'y']) :=
  C3_operator_tag_order.2.2.1 ['x', 'y'] (by decide) (by decide) (by decide)
    (by decide)

/-- C3 counterexample: the input `"="` starts with none of the eight
tags, yet the scanner does not fail with NoMatch — it returns an
incomplete signal (`"="` is a proper prefix of the `"=="` tag, and
`alt!` propagates the first branch's `Incomplete`). -/
theorem C3_operator_prefix_counterexample :
    parse_operator ("=".data) = .incomplete (.size 2) ∧
    (parse_operator ("=".data)).isError = false := by
  refine ⟨by decide, by decide⟩

/-! ## Claim C4 -/

theorem headFails_of_headStopsAlpha {rest : Str} (h : headStopsAlpha rest = true) :
    headFails isAlphaChar rest = true := by
  cases rest with
  | nil => rfl
  | cons c r =>
    simp only [headStopsAlpha, Bool.and_eq_true] at h
    simpa [headFails] using h.2

theorem parse_identifier_like_run (run rest : Str) (hne : run ≠ [])
    (hrun : ∀ c ∈ run, isAlphaChar c = true)
    (hrest : headFails isAlphaChar rest = true) :
    parse_identifier_like (run ++ rest) = .done rest (keywordTable run) := by
  unfold parse_identifier_like
  rw [alpha_done hne hrun hrest]

theorem parse_identifier_like_nonalpha (c : Char) (rest : Str)
    (hc : isAlphaChar c = false) :
    parse_identifier_like (c :: rest) =
      .error (.nodePos .Switch (c :: rest) (.position .Alpha (c :: rest))) := by
  have halpha : alpha (c :: rest) = .error (.position .Alpha (c :: rest)) :=
    classRun_err rest hc
  unfold parse_identifier_like
  rw [halpha]

/-- The switch table falls through to `Identifier` for any run that is
not one of the nine keyword spellings. -/
theorem keywordTable_id (s : Str)
    (h1 : s ≠ ['e', 'q']) (h2 : s ≠ ['n', 'e']) (h3 : s ≠ ['g', 't'])
    (h4 : s ≠ ['l', 't']) (h5 : s ≠ ['g', 'e']) (h6 : s ≠ ['l', 'e'])
    (h7 : s ≠ ['c', 'o', 'n', 't', 'a', 'i', 'n', 's'])
    (h8 : s ≠ ['m', 'a', 't', 'c', 'h', 'e', 's'])
    (h9 : s ≠ ['b', 'i', 't', 'w', 'i', 's', 'e', '_', 'a', 'n', 'd']) :
    keywordTable s = .Identifier s := by
  unfold keywordTable
  rw [if_neg h1, if_neg h2, if_neg h3, if_neg h4, if_neg h5, if_neg h6,
    if_neg h7, if_neg h8, if_neg h9]

/-- C4: the keyword-or-identifier scanner consumes the maximal leading
alphabetic run and classifies the entire run against the exact keyword
table, never splitting a longer run; a non-alphabetic first character is
a `Switch`/`Alpha` error.  The program's alphabetic class is the full
Unicode `char::is_alphabetic`; each assertion here is scoped to ASCII
boundary characters (`headStopsAlpha` and the `isAscii` hypothesis of
the failure case), on which the model provably coincides with the
program's classification. -/
theorem C4_identifier_keywords :
    (∀ (run rest : Str), run ≠ [] → (∀ c ∈ run, isAlphaChar c = true) →
      headStopsAlpha rest = true →
      parse_identifier_like (run ++ rest) = .done rest (keywordTable run)) ∧
    (keywordTable ['e', 'q'] = .Operator .Equal ∧
      keywordTable ['n', 'e'] = .Operator .NotEqual ∧
      keywordTable ['g', 't'] = .Operator .GreaterThan ∧
      keywordTable ['l', 't'] = .Operator .LessThan ∧
      keywordTable ['g', 'e'] = .Operator .GreaterThanEqual ∧
      keywordTable ['l', 'e'] = .Operator .LessThanEqual ∧
      keywordTable ['c', 'o', 'n', 't', 'a', 'i', 'n', 's'] = .Operator .Contains ∧
      keywordTable ['m', 'a', 't', 'c', 'h', 'e', 's'] = .Operator .Matches ∧
      keywordTable ['b', 'i', 't', 'w', 'i', 's', 'e', '_', 'a', 'n', 'd'] =
        .Operator .BitwiseAnd) ∧
    (∀ s : Str, s ≠ ['e', 'q'] → s ≠ ['n', 'e'] → s ≠ ['g', 't'] → s ≠ ['l', 't'] →
      s ≠ ['g', 'e'] → s ≠ ['l', 'e'] → s ≠ ['c', 'o', 'n', 't', 'a', 'i', 'n', 's'] →
      s ≠ ['m', 'a', 't', 'c', 'h', 'e', 's'] →
      s ≠ ['b', 'i', 't', 'w', 'i', 's', 'e', '_', 'a', 'n', 'd'] →
      keywordTable s = .Identifier s) ∧
    parse_identifier_like ("xyz1".data) = .done ("1".data) (.Identifier ("xyz".data)) ∧
    parse_identifier_like ("containst".data) = .done [] (.Identifier ("containst".data)) ∧
    parse_identifier_like ("contains t".data) = .done (" t".data) (.Operator .Contains) ∧
    (∀ (c : Char) (rest : Str), isAscii c = true → isAlphaChar c = false →
      parse_identifier_like (c :: rest) =
        .error (.nodePos .Switch (c :: rest) (.position .Alpha (c :: rest)))) :=
  ⟨fun run rest h1 h2 h3 =>
      parse_identifier_like_run run rest h1 h2 (headFails_of_headStopsAlpha h3),
    by decide, keywordTable_id, by decide, by decide, by decide,
    fun c rest _ hc => parse_identifier_like_nonalpha c rest hc⟩

/-- C4 witness: the run universal at `"ab1"` (an identifier), and the
failure universal at `"1"`. -/
theorem C4_identifier_keywords_witness :
    parse_identifier_like ['a', 'b', '1'] = .done ['1'] (.Identifier ['a', 'b']) ∧
    parse_identifier_like ['1'] =
      .error (.nodePos .Switch ['1'] (.position .Alpha ['1'])) := by
  constructor
  · have h := C4_identifier_keywords.1 ['a', 'b'] ['1'] (by decide) (by decide) (by decide)
    rw [show keywordTable ['a', 'b'] = .Identifier ['a', 'b'] from by decide] at h
    exact h
  · exact C4_identifier_keywords.2.2.2.2.2.2 '1' [] (by decide) (by decide)

/-! ## Claim C5 -/

theorem hex_byte_pair_sep {a b x c d : Char} {r : Str} {v1 v2 : Nat}
    (hv1 : fromStrRadix 8 16 [a, b] = some v1) (hv2 : fromStrRadix 8 16 [c, d] = some v2)
    (hx : x ∈ ([':', '.', '-'] : Str)) :
    hex_byte_pair (a :: b :: x :: c :: d :: r) = .done r (v1, v2) := by
  unfold hex_byte_pair
  refine seqP_done_done (hex_byte_two _ hv1) ?_
  refine seqP_done_done (optP_done (oneOfP_done _ hx)) ?_
  exact mapP_done (hex_byte_two _ hv2)

theorem hex_byte_pair_nosep {a b c d : Char} {r : Str} {v1 v2 : Nat}
    (hv1 : fromStrRadix 8 16 [a, b] = some v1) (hv2 : fromStrRadix 8 16 [c, d] = some v2)
    (hc : c ∉ ([':', '.', '-'] : Str)) :
    hex_byte_pair (a :: b :: c :: d :: r) = .done r (v1, v2) := by
  unfold hex_byte_pair
  refine seqP_done_done (hex_byte_two _ hv1) ?_
  refine seqP_done_done (optP_err (oneOfP_mismatch _ hc)) ?_
  exact mapP_done (hex_byte_two _ hv2)

/-- One byte pair with an arbitrary optional separator between its two
bytes. -/
theorem hex_byte_pair_optSep {a b c d : Char} {r : Str} {v1 v2 : Nat} (s : Option Char)
    (hs : ∀ x, s = some x → x ∈ sepChars) (hcd : c ∉ sepChars)
    (hv1 : fromStrRadix 8 16 [a, b] = some v1) (hv2 : fromStrRadix 8 16 [c, d] = some v2) :
    hex_byte_pair (a :: b :: (optSep s ++ (c :: d :: r))) = .done r (v1, v2) := by
  cases s with
  | none => simpa [optSep] using hex_byte_pair_nosep hv1 hv2 hcd
  | some x => simpa [optSep] using hex_byte_pair_sep hv1 hv2 (hs x rfl)

/-- The Ethernet scanner accepts any of the three separator characters
independently at each separator position; the separators inside a pair
may also be absent. -/
theorem parse_ethernet_mixed_seps (s1 s3 s5 : Option Char) (s2 s4 : Char)
    (h1 : ∀ x, s1 = some x → x ∈ sepChars) (h3 : ∀ x, s3 = some x → x ∈ sepChars)
    (h5 : ∀ x, s5 = some x → x ∈ sepChars)
    (h2 : s2 ∈ sepChars) (h4 : s4 ∈ sepChars) (rest : Str) :
    parse_ethernet_addr (['1', '2'] ++ optSep s1 ++ ['3', '4'] ++ [s2] ++
      ['5', '6'] ++ optSep s3 ++ ['7', '8'] ++ [s4] ++
      ['9', '0'] ++ optSep s5 ++ ['a', 'b'] ++ rest) =
      .done rest [0x12, 0x34, 0x56, 0x78, 0x90, 0xab] := by
  have e12 : fromStrRadix 8 16 ['1', '2'] = some 0x12 := by decide
  have e34 : fromStrRadix 8 16 ['3', '4'] = some 0x34 := by decide
  have e56 : fromStrRadix 8 16 ['5', '6'] = some 0x56 := by decide
  have e78 : fromStrRadix 8 16 ['7', '8'] = some 0x78 := by decide
  have e90 : fromStrRadix 8 16 ['9', '0'] = some 0x90 := by decide
  have eab : fromStrRadix 8 16 ['a', 'b'] = some 0xab := by decide
  simp only [List.append_assoc, List.cons_append, List.nil_append]
  unfold parse_ethernet_addr
  refine seqP_done_done (hex_byte_pair_optSep s1 h1 (by decide) e12 e34) ?_
  refine seqP_done_done (oneOfP_done _ h2) ?_
  refine seqP_done_done (hex_byte_pair_optSep s3 h3 (by decide) e56 e78) ?_
  refine seqP_done_done (oneOfP_done _ h4) ?_
  exact mapP_done (hex_byte_pair_optSep s5 h5 (by decide) e90 eab)

/-- C5: the Ethernet scanner accepts `:`, `.` and `-` independently at
each separator position (inner separators optional, outer separators
required), as the claim's three mixed-style examples show, and fails
positionally at the subslice where two hex digits were expected
(`MapRes` at `7g:90:ab`) or where a required separator was missing
(`OneOf` at `f:56:78:90:ab`). -/
theorem C5_ethernet_separator_tolerance :
    (∀ (s1 s3 s5 : Option Char) (s2 s4 : Char),
      (∀ x, s1 = some x → x ∈ sepChars) → (∀ x, s3 = some x → x ∈ sepChars) →
      (∀ x, s5 = some x → x ∈ sepChars) → s2 ∈ sepChars → s4 ∈ sepChars →
      ∀ rest : Str,
        parse_ethernet_addr (['1', '2'] ++ optSep s1 ++ ['3', '4'] ++ [s2] ++
          ['5', '6'] ++ optSep s3 ++ ['7', '8'] ++ [s4] ++
          ['9', '0'] ++ optSep s5 ++ ['a', 'b'] ++ rest) =
          .done rest [0x12, 0x34, 0x56, 0x78, 0x90, 0xab]) ∧
    parse_ethernet_addr ("12:34:56:78:90:abc".data) =
      .done ("c".data) [0x12, 0x34, 0x56, 0x78, 0x90, 0xab] ∧
    parse_ethernet_addr ("12.34.56.78.90.abc".data) =
      .done ("c".data) [0x12, 0x34, 0x56, 0x78, 0x90, 0xab] ∧
    parse_ethernet_addr ("12.34:56.78-90abc".data) =
      .done ("c".data) [0x12, 0x34, 0x56, 0x78, 0x90, 0xab] ∧
    parse_ethernet_addr ("12:34:56:7g:90:ab".data) =
      .error (.position .MapRes ("7g:90:ab".data)) ∧
    parse_ethernet_addr ("12:34f:56:78:90:ab".data) =
      .error (.position .OneOf ("f:56:78:90:ab".data)) :=
  ⟨parse_ethernet_mixed_seps, by decide, by decide, by decide, by decide, by decide⟩

/-- C5 witness: the separator universal at a mixed choice — no inner
separator in the first pair, `-` and `:` as the required separators,
`.` and `-` inside the later pairs. -/
theorem C5_ethernet_separator_tolerance_witness :
    parse_ethernet_addr (['1', '2'] ++ optSep none ++ ['3', '4'] ++ ['-'] ++
      ['5', '6'] ++ optSep (some '.') ++ ['7', '8'] ++ [':'] ++
      ['9', '0'] ++ optSep (some '-') ++ ['a', 'b'] ++ ['x', 'y']) =
      .done ['x', 'y'] [0x12, 0x34, 0x56, 0x78, 0x90, 0xab] :=
  C5_ethernet_separator_tolerance.1 none (some '.') (some '-') '-' ':'
    (by intro x hx; cases hx) (by intro x hx; cases hx; decide)
    (by intro x hx; cases hx; decide) (by decide) (by decide) ['x', 'y']

/-! ## Claim C6 -/

theorem headFails_dot (X : Str) : headFails isDecDigit ('.' :: X) = true := by
  have hc : isDecDigit '.' = false := by decide
  simp [headFails, hc]

/-- Four in-range decimal runs separated by dots parse to the four
values. -/
theorem parse_ipv4_ok (r1 r2 r3 r4 rest : Str) (v1 v2 v3 v4 : Nat)
    (h1 : r1 ≠ []) (hd1 : ∀ c ∈ r1, isDecDigit c = true)
    (hv1 : digitsVal 10 0 r1 = some v1) (hb1 : v1 < 256)
    (h2 : r2 ≠ []) (hd2 : ∀ c ∈ r2, isDecDigit c = true)
    (hv2 : digitsVal 10 0 r2 = some v2) (hb2 : v2 < 256)
    (h3 : r3 ≠ []) (hd3 : ∀ c ∈ r3, isDecDigit c = true)
    (hv3 : digitsVal 10 0 r3 = some v3) (hb3 : v3 < 256)
    (h4 : r4 ≠ []) (hd4 : ∀ c ∈ r4, isDecDigit c = true)
    (hv4 : digitsVal 10 0 r4 = some v4) (hb4 : v4 < 256)
    (hrest : headFails isDecDigit rest = true) :
    parse_ipv4 (r1 ++ '.' :: (r2 ++ '.' :: (r3 ++ '.' :: (r4 ++ rest)))) =
      .done rest [v1, v2, v3, v4] := by
  unfold parse_ipv4
  refine seqP_done_done (dec_byte_ok h1 hd1 (headFails_dot _) hv1 hb1) ?_
  refine seqP_done_done (charP_done _) ?_
  refine seqP_done_done (dec_byte_ok h2 hd2 (headFails_dot _) hv2 hb2) ?_
  refine seqP_done_done (charP_done _) ?_
  refine seqP_done_done (dec_byte_ok h3 hd3 (headFails_dot _) hv3 hb3) ?_
  refine seqP_done_done (charP_done _) ?_
  exact mapP_done (dec_byte_ok h4 hd4 hrest hv4 hb4)

/-- A first literal above 255 fails at the whole input (the literal's
subslice). -/
theorem parse_ipv4_overflow_first (r1 tail : Str) (v1 : Nat)
    (h1 : r1 ≠ []) (hd1 : ∀ c ∈ r1, isDecDigit c = true)
    (htail : headFails isDecDigit tail = true)
    (hv1 : digitsVal 10 0 r1 = some v1) (hb1 : 256 ≤ v1) :
    parse_ipv4 (r1 ++ tail) = .error (.position .MapRes (r1 ++ tail)) := by
  unfold parse_ipv4
  exact seqP_err (dec_byte_overflow h1 hd1 htail hv1 hb1)

/-- A second literal above 255 (the first in range) fails at the second
literal's subslice. -/
theorem parse_ipv4_overflow_second (r1 r2 tail : Str) (v1 v2 : Nat)
    (h1 : r1 ≠ []) (hd1 : ∀ c ∈ r1, isDecDigit c = true)
    (hv1 : digitsVal 10 0 r1 = some v1) (hb1 : v1 < 256)
    (h2 : r2 ≠ []) (hd2 : ∀ c ∈ r2, isDecDigit c = true)
    (htail : headFails isDecDigit tail = true)
    (hv2 : digitsVal 10 0 r2 = some v2) (hb2 : 256 ≤ v2) :
    parse_ipv4 (r1 ++ '.' :: (r2 ++ tail)) = .error (.position .MapRes (r2 ++ tail)) := by
  unfold parse_ipv4
  refine seqP_done_err (dec_byte_ok h1 hd1 (headFails_dot _) hv1 hb1) ?_
  refine seqP_done_err (charP_done _) ?_
  exact seqP_err (dec_byte_overflow h2 hd2 htail hv2 hb2)

/-- A third literal above 255 (the first two in range) fails at the
third literal's subslice. -/
theorem parse_ipv4_overflow_third (r1 r2 r3 tail : Str) (v1 v2 v3 : Nat)
    (h1 : r1 ≠ []) (hd1 : ∀ c ∈ r1, isDecDigit c = true)
    (hv1 : digitsVal 10 0 r1 = some v1) (hb1 : v1 < 256)
    (h2 : r2 ≠ []) (hd2 : ∀ c ∈ r2, isDecDigit c = true)
    (hv2 : digitsVal 10 0 r2 = some v2) (hb2 : v2 < 256)
    (h3 : r3 ≠ []) (hd3 : ∀ c ∈ r3, isDecDigit c = true)
    (htail : headFails isDecDigit tail = true)
    (hv3 : digitsVal 10 0 r3 = some v3) (hb3 : 256 ≤ v3) :
    parse_ipv4 (r1 ++ '.' :: (r2 ++ '.' :: (r3 ++ tail))) =
      .error (.position .MapRes (r3 ++ tail)) := by
  unfold parse_ipv4
  refine seqP_done_err (dec_byte_ok h1 hd1 (headFails_dot _) hv1 hb1) ?_
  refine seqP_done_err (charP_done _) ?_
  refine seqP_done_err (dec_byte_ok h2 hd2 (headFails_dot _) hv2 hb2) ?_
  refine seqP_done_err (charP_done _) ?_
  exact seqP_err (dec_byte_overflow h3 hd3 htail hv3 hb3)

/-- A fourth literal above 255 (the first three in range) fails at the
fourth literal's subslice. -/
theorem parse_ipv4_overflow_fourth (r1 r2 r3 r4 rest : Str) (v1 v2 v3 v4 : Nat)
    (h1 : r1 ≠ []) (hd1 : ∀ c ∈ r1, isDecDigit c = true)
    (hv1 : digitsVal 10 0 r1 = some v1) (hb1 : v1 < 256)
    (h2 : r2 ≠ []) (hd2 : ∀ c ∈ r2, isDecDigit c = true)
    (hv2 : digitsVal 10 0 r2 = some v2) (hb2 : v2 < 256)
    (h3 : r3 ≠ []) (hd3 : ∀ c ∈ r3, isDecDigit c = true)
    (hv3 : digitsVal 10 0 r3 = some v3) (hb3 : v3 < 256)
    (h4 : r4 ≠ []) (hd4 : ∀ c ∈ r4, isDecDigit c = true)
    (hv4 : digitsVal 10 0 r4 = some v4) (hb4 : 256 ≤ v4)
    (hrest : headFails isDecDigit rest = true) :
    parse_ipv4 (r1 ++ '.' :: (r2 ++ '.' :: (r3 ++ '.' :: (r4 ++ rest)))) =
      .error (.position .MapRes (r4 ++ rest)) := by
  unfold parse_ipv4
  refine seqP_done_err (dec_byte_ok h1 hd1 (headFails_dot _) hv1 hb1) ?_
  refine seqP_done_err (charP_done _) ?_
  refine seqP_done_err (dec_byte_ok h2 hd2 (headFails_dot _) hv2 hb2) ?_
  refine seqP_done_err (charP_done _) ?_
  refine seqP_done_err (dec_byte_ok h3 hd3 (headFails_dot _) hv3 hb3) ?_
  refine seqP_done_err (charP_done _) ?_
  exact mapP_err (dec_byte_overflow h4 hd4 hrest hv4 hb4)

/-- C6, amended.  The IPv4 scanner parses four maximal decimal digit
runs separated by dots; each literal is a run of *one or more* digits
(not 1 to 3 — Rust's `u8::from_str` accepts any number of leading
zeros, so `"0001.2.3.4;"` parses to `[1,2,3,4]`), whose numeric value
must fit in 0-255.  A literal whose value exceeds 255 fails the whole
parse with `MapRes` at that literal's subslice, never truncating or
wrapping — proved at each of the four literal positions. -/
theorem C6_ipv4_literals :
    (∀ (r1 r2 r3 r4 rest : Str) (v1 v2 v3 v4 : Nat),
      r1 ≠ [] → (∀ c ∈ r1, isDecDigit c = true) → digitsVal 10 0 r1 = some v1 → v1 < 256 →
      r2 ≠ [] → (∀ c ∈ r2, isDecDigit c = true) → digitsVal 10 0 r2 = some v2 → v2 < 256 →
      r3 ≠ [] → (∀ c ∈ r3, isDecDigit c = true) → digitsVal 10 0 r3 = some v3 → v3 < 256 →
      r4 ≠ [] → (∀ c ∈ r4, isDecDigit c = true) → digitsVal 10 0 r4 = some v4 → v4 < 256 →
      headFails isDecDigit rest = true →
      parse_ipv4 (r1 ++ '.' :: (r2 ++ '.' :: (r3 ++ '.' :: (r4 ++ rest)))) =
        .done rest [v1, v2, v3, v4]) ∧
    (∀ (r1 tail : Str) (v1 : Nat),
      r1 ≠ [] → (∀ c ∈ r1, isDecDigit c = true) → headFails isDecDigit tail = true →
      digitsVal 10 0 r1 = some v1 → 256 ≤ v1 →
      parse_ipv4 (r1 ++ tail) = .error (.position .MapRes (r1 ++ tail))) ∧
    (∀ (r1 r2 tail : Str) (v1 v2 : Nat),
      r1 ≠ [] → (∀ c ∈ r1, isDecDigit c = true) → digitsVal 10 0 r1 = some v1 → v1 < 256 →
      r2 ≠ [] → (∀ c ∈ r2, isDecDigit c = true) → headFails isDecDigit tail = true →
      digitsVal 10 0 r2 = some v2 → 256 ≤ v2 →
      parse_ipv4 (r1 ++ '.' :: (r2 ++ tail)) = .error (.position .MapRes (r2 ++ tail))) ∧
    (∀ (r1 r2 r3 tail : Str) (v1 v2 v3 : Nat),
      r1 ≠ [] → (∀ c ∈ r1, isDecDigit c = true) → digitsVal 10 0 r1 = some v1 → v1 < 256 →
      r2 ≠ [] → (∀ c ∈ r2, isDecDigit c = true) → digitsVal 10 0 r2 = some v2 → v2 < 256 →
      r3 ≠ [] → (∀ c ∈ r3, isDecDigit c = true) → headFails isDecDigit tail = true →
      digitsVal 10 0 r3 = some v3 → 256 ≤ v3 →
      parse_ipv4 (r1 ++ '.' :: (r2 ++ '.' :: (r3 ++ tail))) =
        .error (.position .MapRes (r3 ++ tail))) ∧
    (∀ (r1 r2 r3 r4 rest : Str) (v1 v2 v3 v4 : Nat),
      r1 ≠ [] → (∀ c ∈ r1, isDecDigit c = true) → digitsVal 10 0 r1 = some v1 → v1 < 256 →
      r2 ≠ [] → (∀ c ∈ r2, isDecDigit c = true) → digitsVal 10 0 r2 = some v2 → v2 < 256 →
      r3 ≠ [] → (∀ c ∈ r3, isDecDigit c = true) → digitsVal 10 0 r3 = some v3 → v3 < 256 →
      r4 ≠ [] → (∀ c ∈ r4, isDecDigit c = true) → digitsVal 10 0 r4 = some v4 → 256 ≤ v4 →
      headFails isDecDigit rest = true →
      parse_ipv4 (r1 ++ '.' :: (r2 ++ '.' :: (r3 ++ '.' :: (r4 ++ rest)))) =
        .error (.position .MapRes (r4 ++ rest))) ∧
    parse_ipv4 ("12.34.56.78;".data) = .done (";".data) [12, 34, 56, 78] ∧
    parse_ipv4 ("12.34.56.789".data) = .error (.position .MapRes ("789".data)) ∧
    parse_ipv4 ("0001.2.3.4;".data) = .done (";".data) [1, 2, 3, 4] := by
  refine ⟨?_, ?_, ?_, ?_, ?_, by decide, by decide, by decide⟩
  · intro r1 r2 r3 r4 rest v1 v2 v3 v4 h1 hd1 hv1 hb1 h2 hd2 hv2 hb2 h3 hd3 hv3 hb3
      h4 hd4 hv4 hb4 hrest
    exact parse_ipv4_ok r1 r2 r3 r4 rest v1 v2 v3 v4 h1 hd1 hv1 hb1 h2 hd2 hv2 hb2
      h3 hd3 hv3 hb3 h4 hd4 hv4 hb4 hrest
  · intro r1 tail v1 h1 hd1 htail hv1 hb1
    exact parse_ipv4_overflow_first r1 tail v1 h1 hd1 htail hv1 hb1
  · intro r1 r2 tail v1 v2 h1 hd1 hv1 hb1 h2 hd2 htail hv2 hb2
    exact parse_ipv4_overflow_second r1 r2 tail v1 v2 h1 hd1 hv1 hb1 h2 hd2 htail hv2 hb2
  · intro r1 r2 r3 tail v1 v2 v3 h1 hd1 hv1 hb1 h2 hd2 hv2 hb2 h3 hd3 htail hv3 hb3
    exact parse_ipv4_overflow_third r1 r2 r3 tail v1 v2 v3 h1 hd1 hv1 hb1 h2 hd2 hv2 hb2
      h3 hd3 htail hv3 hb3
  · intro r1 r2 r3 r4 rest v1 v2 v3 v4 h1 hd1 hv1 hb1 h2 hd2 hv2 hb2 h3 hd3 hv3 hb3
      h4 hd4 hv4 hb4 hrest
    exact parse_ipv4_overflow_fourth r1 r2 r3 r4 rest v1 v2 v3 v4 h1 hd1 hv1 hb1
      h2 hd2 hv2 hb2 h3 hd3 hv3 hb3 h4 hd4 hv4 hb4 hrest

/-- C6 witness: the success universal at `"2.3.4.250;"` and the four
overflow universals, one instance at each literal position. -/
theorem C6_ipv4_literals_witness :
    parse_ipv4 (['2'] ++ '.' :: (['3'] ++ '.' :: (['4'] ++ '.' :: (['2', '5', '0'] ++ [';'])))) =
      .done [';'] [2, 3, 4, 250] ∧
    parse_ipv4 (['9', '9', '9'] ++ []) =
      .error (.position .MapRes (['9', '9', '9'] ++ [])) ∧
    parse_ipv4 (['1'] ++ '.' :: (['3', '0', '0'] ++ [';'])) =
      .error (.position .MapRes (['3', '0', '0'] ++ [';'])) ∧
    parse_ipv4 (['1'] ++ '.' :: (['2'] ++ '.' :: (['9', '9', '9'] ++ []))) =
      .error (.position .MapRes (['9', '9', '9'] ++ [])) ∧
    parse_ipv4 (['1'] ++ '.' :: (['2'] ++ '.' :: (['3'] ++ '.' :: (['9', '9', '9'] ++ [])))) =
      .error (.position .MapRes (['9', '9', '9'] ++ [])) :=
  ⟨C6_ipv4_literals.1 ['2'] ['3'] ['4'] ['2', '5', '0'] [';'] 2 3 4 250
      (by decide) (by decide) (by decide) (by decide) (by decide) (by decide) (by decide)
      (by decide) (by decide) (by decide) (by decide) (by decide) (by decide) (by decide)
      (by decide) (by decide) (by decide),
    C6_ipv4_literals.2.1 ['9', '9', '9'] [] 999 (by decide) (by decide) (by decide)
      (by decide) (by decide),
    C6_ipv4_literals.2.2.1 ['1'] ['3', '0', '0'] [';'] 1 300
      (by decide) (by decide) (by decide) (by decide) (by decide) (by decide) (by decide)
      (by decide) (by decide),
    C6_ipv4_literals.2.2.2.1 ['1'] ['2'] ['9', '9', '9'] [] 1 2 999
      (by decide) (by decide) (by decide) (by decide) (by decide) (by decide) (by decide)
      (by decide) (by decide) (by decide) (by decide) (by decide) (by decide),
    C6_ipv4_literals.2.2.2.2.1 ['1'] ['2'] ['3'] ['9', '9', '9'] [] 1 2 3 999
      (by decide) (by decide) (by decide) (by decide) (by decide) (by decide) (by decide)
      (by decide) (by decide) (by decide) (by decide) (by decide) (by decide) (by decide)
      (by decide) (by decide) (by decide)⟩

/-- C6 counterexample: the literal grammar is not limited to 1-3
digits — the four-digit literal `0001` (value 1) is accepted, so the
claim's "1 to 3 digits" grammar is refuted. -/
theorem C6_ipv4_four_digit_counterexample :
    parse_ipv4 ("0001.2.3.4;".data) = .done (";".data) [1, 2, 3, 4] ∧
    (parse_ipv4 ("0001.2.3.4;".data)).isError = false := by
  refine ⟨by decide, by decide⟩

/-! ## Claim C9 -/

/-- C9, amended: the incomplete outcome is not exclusive to the string
scanner.  Each of the five other scanners returns an incomplete signal
on a truncated input: nom's streaming `tag!`, `take!`, `char!` and the
character-class readers report `Incomplete` when the input ends too
early, and `alt!` and the sequencing macros propagate it (`"0"` is a
proper prefix of the `0x` tag, `"!"` of `!=`, the empty input of an
alphabetic run, `"1"` of a two-character hex byte, and `"1.2.3"` of a
dotted quad). -/
theorem C9_incomplete_not_exclusive :
    (∃ n, parse_unsigned ['0'] = .incomplete n) ∧
    (∃ n, parse_operator ['!'] = .incomplete n) ∧
    (∃ n, parse_identifier_like [] = .incomplete n) ∧
    (∃ n, parse_ethernet_addr ['1'] = .incomplete n) ∧
    (∃ n, parse_ipv4 ['1', '.', '2', '.', '3'] = .incomplete n) :=
  ⟨⟨.size 2, by decide⟩, ⟨.size 2, by decide⟩, ⟨.size 1, by decide⟩,
    ⟨.size 2, by decide⟩, ⟨.size 6, by decide⟩⟩

/-- C9 counterexample: on the input `"1"` the Ethernet scanner returns
neither a success nor a structural failure but an incomplete signal
(`take!(2)` wants two characters), refuting the claim that only the
string scanner produces the incomplete outcome. -/
theorem C9_ethernet_incomplete_counterexample :
    parse_ethernet_addr ['1'] = .incomplete (.size 2) ∧
    (parse_ethernet_addr ['1']).isError = false ∧
    (parse_ethernet_addr ['1']).isDone = false := by
  refine ⟨by decide, by decide, by decide⟩

/-! ## Claims C10 and C8: the string scanner's mandatory initial run -/

theorem isNotP_err {cs : Str} {x : Char} (r : Str) (hx : x ∈ cs) :
    isNotP cs (x :: r) = .error (.position .IsNot (x :: r)) := by
  simp [isNotP, hx]

theorem isNotP_done_cons {cs : Str} {x : Char} (r : Str) (hx : x ∉ cs) :
    isNotP cs (x :: r) =
      .done ((x :: r).dropWhile (fun c => ! cs.contains c))
        ((x :: r).takeWhile (fun c => ! cs.contains c)) := by
  simp [isNotP, hx]

theorem isNotP_run {cs u w : Str} (hne : u ≠ [])
    (hu : ∀ c ∈ u, (! cs.contains c) = true)
    (hw : headFails (fun c => ! cs.contains c) w = true) :
    isNotP cs (u ++ w) = .done w u := by
  cases u with
  | nil => exact absurd rfl hne
  | cons c u' =>
    have hc : c ∉ cs := by
      have := hu c (by simp)
      simpa using this
    show isNotP cs (c :: (u' ++ w)) = _
    rw [isNotP_done_cons (u' ++ w) hc, ← List.cons_append,
      takeWhile_append_run hu hw, dropWhile_append_run hu hw]

theorem foldMany0P_stop {p : Parser α} {f : β → α → β} {init : β} {x : Char} {r : Str}
    {e : NomError} (hp : p (x :: r) = .error e) :
    foldMany0P p init f (x :: r) = .done (x :: r) init := by
  unfold foldMany0P foldGo
  simp [hp]

/-- The first escape item fails immediately when the character after the
opening quote is a quote or a backslash cannot begin it. -/
theorem escape_item_err {x : Char} (r : Str) (hx : x ≠ '\\') :
    escape_item (x :: r) = .error (.position .Chr (x :: r)) :=
  precededP_err (charP_mismatch r hx)

/-- C10: the string scanner requires a nonempty escape-free run right
after the opening quote (`is_not!` is a one-or-more parser), so the
empty string literal and a body beginning with a backslash escape both
fail with an `IsNot` error even though the spec's grammar admits them. -/
theorem C10_string_initial_run_required :
    (∀ rest : Str, parse_string ('\x22' :: '\x22' :: rest) =
      .error (.position .IsNot ('\x22' :: rest))) ∧
    (∀ rest : Str, parse_string ('\x22' :: '\\' :: rest) =
      .error (.position .IsNot ('\\' :: rest))) ∧
    parse_string ("\x22\x22".data) = .error (.position .IsNot ("\x22".data)) ∧
    parse_string ("\x22\\x41\x22".data) = .error (.position .IsNot ("\\x41\x22".data)) ∧
    (parse_string ("\x22\x22".data)).isDone = false ∧
    (parse_string ("\x22\\x41\x22".data)).isDone = false := by
  refine ⟨?_, ?_, by decide, by decide, by decide, by decide⟩
  · intro rest
    unfold parse_string
    refine seqP_done_err (charP_done _) ?_
    exact seqP_err (mapP_err (isNotP_err rest (by decide)))
  · intro rest
    unfold parse_string
    refine seqP_done_err (charP_done _) ?_
    exact seqP_err (mapP_err (isNotP_err rest (by decide)))

/-- C8, amended.  For every *nonempty* text containing neither a quote
nor a backslash, wrapping in double quotes and scanning returns exactly
that text as a borrowed (zero-copy, non-allocating) view; the empty
text is excluded because the scanner's mandatory initial run rejects
`""` (see the initial-run claim). -/
theorem C8_string_borrowed_roundtrip :
    ∀ text : Str, text ≠ [] → '\x22' ∉ text → '\\' ∉ text →
      parse_string ('\x22' :: (text ++ ['\x22'])) = .done [] (.borrowed text) := by
  intro text hne hq hb
  have hu : ∀ c ∈ text, (! (['\x22', '\\'] : Str).contains c) = true := by
    intro c hc
    have h1 : c ≠ '\x22' := fun h => hq (h ▸ hc)
    have h2 : c ≠ '\\' := fun h => hb (h ▸ hc)
    simp [h1, h2]
  have hw : headFails (fun c => ! (['\x22', '\\'] : Str).contains c) ['\x22'] = true := by
    decide
  unfold parse_string
  refine seqP_done_done (charP_done _) ?_
  refine seqP_done_done (mapP_done (isNotP_run hne hu hw)) ?_
  refine seqP_done_done (foldMany0P_stop (escape_item_err [] (by decide))) ?_
  exact mapP_done (charP_done _)

/-- C8 witness: the borrowed round trip at the two-character text `ab`. -/
theorem C8_string_borrowed_roundtrip_witness :
    parse_string ('\x22' :: (['a', 'b'] ++ ['\x22'])) = .done [] (.borrowed ['a', 'b']) :=
  C8_string_borrowed_roundtrip ['a', 'b'] (by decide) (by decide) (by decide)

/-- C8 counterexample: the claim quantifies over *every* escape-free
text, but the empty text fails — `parse_string` on `""` (two quotes) is
an `IsNot` error, not a borrowed empty string. -/
theorem C8_string_empty_text_counterexample :
    parse_string ("\x22\x22".data) = .error (.position .IsNot ("\x22".data)) ∧
    (parse_string ("\x22\x22".data)).isDone = false := by
  refine ⟨by decide, by decide⟩

/-! ## Claim C7: utilities for the incomplete-universal -/

theorem takeP_short {n : Nat} {i : Str} (h : i.length < n) :
    takeP n i = .incomplete (.size n) := by
  simp [takeP, h]

theorem digitsVal_none_head {base : Nat} {c : Char} (acc : Nat) (cs : Str)
    (h : digitVal base c = none) : digitsVal base acc (c :: cs) = none := by
  simp [digitsVal, h]

theorem fromStrRadix_none {bits base : Nat} {c : Char} {r : Str}
    (hplus : c ≠ '+')
    (hv : digitsVal base 0 (c :: r) = none) :
    fromStrRadix bits base (c :: r) = none := by
  unfold fromStrRadix
  simp only [if_neg hplus]
  simp [hv]

theorem length_dropWhile_le (q : Char → Bool) (l : Str) :
    (l.dropWhile q).length ≤ l.length := by
  have e := List.takeWhile_append_dropWhile q l
  have h2 := congrArg List.length e
  simp only [List.length_append] at h2
  omega

theorem mem_of_mem_dropWhile (q : Char → Bool) {l : Str} {x : Char}
    (h : x ∈ l.dropWhile q) : x ∈ l := by
  have e := List.takeWhile_append_dropWhile q l
  rw [← e]
  exact List.mem_append_right _ h

theorem dropWhile_head_stop {q : Char → Bool} {l : Str} {c : Char} {r : Str}
    (h : l.dropWhile q = c :: r) : q c = false := by
  have hf := headFails_dropWhile q l
  rw [h] at hf
  simpa [headFails] using hf

/-- Case analysis for the escape head: on a nonempty input it is either
incomplete (with a size hint) or succeeds consuming at least one
character, leaving a remainder drawn from the input. -/
theorem escape_char_cases (c : Char) (u : Str) :
    (∃ n, escape_char (c :: u) = .incomplete (.size n)) ∨
    (∃ ch rem, escape_char (c :: u) = .done rem ch ∧
      rem.length < (c :: u).length ∧ ∀ x ∈ rem, x ∈ c :: u) := by
  by_cases hx : c = 'x'
  · subst hx
    match u with
    | [] => exact Or.inl ⟨3, by decide⟩
    | [a] =>
      left
      refine ⟨3, ?_⟩
      have h2 : mapP hex_byte Char.ofNat [a] = .incomplete (.size 2) :=
        mapP_inc (mapResP_inc (takeP_short (by simp)))
      exact altP_cons_inc (seqP_done_incS (charP_done [a]) h2)
    | a :: b :: w =>
      cases hfv : fromStrRadix 8 16 [a, b] with
      | some v =>
        right
        refine ⟨Char.ofNat v, w, ?_, by simp only [List.length_cons]; omega,
          fun x hx => by simp [hx]⟩
        exact altP_cons_done
          (precededP_done_done (charP_done _) (mapP_done (hex_byte_two w hfv)))
      | none =>
        right
        refine ⟨'x', a :: b :: w, ?_, by simp, fun x hx => by simp [hx]⟩
        have hb1 : precededP (charP 'x') (mapP hex_byte Char.ofNat)
            ('x' :: a :: b :: w) = .error (.position .MapRes (a :: b :: w)) :=
          precededP_done_err (charP_done _)
            (mapP_err (mapResP_none (takeP_two a b w) hfv))
        have hb2 : mapP oct_byte Char.ofNat ('x' :: a :: b :: w) =
            .error (.position .MapRes ('x' :: a :: b :: w)) :=
          mapP_err (mapResP_none (takeP_three 'x' a b w)
            (fromStrRadix_none (by decide)
              (digitsVal_none_head 0 [a, b] (by decide))))
        show altP _ ('x' :: a :: b :: w) = _
        rw [altP_cons_err hb1, altP_cons_err hb2]
        exact altP_cons_done rfl
  · have hb1 : precededP (charP 'x') (mapP hex_byte Char.ofNat) (c :: u) =
        .error (.position .Chr (c :: u)) :=
      precededP_err (charP_mismatch u hx)
    match u with
    | [] =>
      left
      refine ⟨3, ?_⟩
      have h2 : mapP oct_byte Char.ofNat [c] = .incomplete (.size 3) :=
        mapP_inc (mapResP_inc (takeP_short (by simp)))
      show altP _ [c] = _
      rw [altP_cons_err hb1]
      exact altP_cons_inc h2
    | [a] =>
      left
      refine ⟨3, ?_⟩
      have h2 : mapP oct_byte Char.ofNat [c, a] = .incomplete (.size 3) :=
        mapP_inc (mapResP_inc (takeP_short (by simp)))
      show altP _ [c, a] = _
      rw [altP_cons_err hb1]
      exact altP_cons_inc h2
    | a :: b :: w =>
      cases hfv : fromStrRadix 8 8 [c, a, b] with
      | some v =>
        right
        refine ⟨Char.ofNat v, w, ?_, by simp only [List.length_cons]; omega,
          fun x hx2 => by simp [hx2]⟩
        have h2 : mapP oct_byte Char.ofNat (c :: a :: b :: w) = .done w (Char.ofNat v) :=
          mapP_done (mapResP_done (takeP_three c a b w) hfv)
        show altP _ (c :: a :: b :: w) = _
        rw [altP_cons_err hb1]
        exact altP_cons_done h2
      | none =>
        right
        refine ⟨c, a :: b :: w, ?_, by simp, fun x hx2 => by simp [hx2]⟩
        have h2 : mapP oct_byte Char.ofNat (c :: a :: b :: w) =
            .error (.position .MapRes (c :: a :: b :: w)) :=
          mapP_err (mapResP_none (takeP_three c a b w) hfv)
        show altP _ (c :: a :: b :: w) = _
        rw [altP_cons_err hb1, altP_cons_err h2]
        exact altP_cons_done rfl

/-- What `is_not!` leaves behind inside a quote-free slice: a remainder
that is still quote-free and is either empty or starts with a
backslash. -/
theorem dropWhile_esc_inv (l : Str) (hq : '\x22' ∉ l) :
    '\x22' ∉ l.dropWhile (fun c => ! (['\x22', '\\'] : Str).contains c) ∧
    (l.dropWhile (fun c => ! (['\x22', '\\'] : Str).contains c) = [] ∨
      (l.dropWhile (fun c => ! (['\x22', '\\'] : Str).contains c)).head? = some '\\') := by
  constructor
  · exact fun h => hq (mem_of_mem_dropWhile _ h)
  · cases hdw : l.dropWhile (fun c => ! (['\x22', '\\'] : Str).contains c) with
    | nil => exact Or.inl rfl
    | cons c3 r3 =>
      right
      have hstop := dropWhile_head_stop hdw
      have hcont : (['\x22', '\\'] : Str).contains c3 = true := by
        have h' : (! (['\x22', '\\'] : Str).contains c3) = false := hstop
        simp only [Bool.not_eq_false'] at h'
        exact h'
      have hc3 : c3 ∈ (['\x22', '\\'] : Str) := List.mem_of_elem_eq_true hcont
      have hc3mem : c3 ∈ l := by
        refine mem_of_mem_dropWhile (fun c => ! (['\x22', '\\'] : Str).contains c) ?_
        rw [hdw]
        exact List.mem_cons_self _ _
      have hc3q : c3 ≠ '\x22' := fun h => hq (h ▸ hc3mem)
      have hc3b : c3 = '\\' := by
        rcases List.mem_cons.mp hc3 with h | h
        · exact absurd h hc3q
        · simpa using h
      simp [hc3b]

/-- The run-after-escape part of a fold item always succeeds and
preserves the loop invariant. -/
theorem escape_tail_cases (ch : Char) (rem1 : Str) (hq : '\x22' ∉ rem1) :
    ∃ pr rem, mapP (optP (isNotP ['\x22', '\\'])) (fun r => (ch, r.getD [])) rem1 =
        .done rem pr ∧ rem.length ≤ rem1.length ∧ '\x22' ∉ rem ∧
        (rem = [] ∨ rem.head? = some '\\') := by
  match rem1 with
  | [] =>
    have hnil : isNotP (['\x22', '\\'] : Str) ([] : Str) = .done [] [] := rfl
    exact ⟨(ch, []), [], mapP_done (optP_done hnil), by simp, by simp, Or.inl rfl⟩
  | c2 :: r2 =>
    by_cases hc2 : c2 ∈ (['\x22', '\\'] : Str)
    · have hc2b : c2 = '\\' := by
        rcases List.mem_cons.mp hc2 with h | h
        · subst h
          exact absurd (List.mem_cons_self _ _) hq
        · simpa using h
      refine ⟨(ch, []), c2 :: r2, ?_, le_refl _, hq, Or.inr (by rw [hc2b]; rfl)⟩
      exact mapP_done (optP_err (isNotP_err r2 hc2))
    · obtain ⟨hq2, hinv2⟩ := dropWhile_esc_inv (c2 :: r2) hq
      refine ⟨(ch, (c2 :: r2).takeWhile (fun c => ! (['\x22', '\\'] : Str).contains c)),
        (c2 :: r2).dropWhile (fun c => ! (['\x22', '\\'] : Str).contains c),
        mapP_done (optP_done (isNotP_done_cons r2 hc2)),
        length_dropWhile_le _ _, hq2, hinv2⟩

/-- One fold item on a quote-free input starting with a backslash:
either incomplete with a size hint, or a success that consumes at least
the backslash and leaves the invariant intact. -/
theorem escape_item_cases (t : Str) (hq : '\x22' ∉ ('\\' :: t)) :
    (∃ n, escape_item ('\\' :: t) = .incomplete (.size n)) ∨
    (∃ pr rem, escape_item ('\\' :: t) = .done rem pr ∧
      rem.length < ('\\' :: t).length ∧ '\x22' ∉ rem ∧
      (rem = [] ∨ rem.head? = some '\\')) := by
  match t with
  | [] => exact Or.inl ⟨2, by decide⟩
  | c :: u =>
    rcases escape_char_cases c u with ⟨n, hinc⟩ | ⟨ch, rem1, hdone, hlt, hsub⟩
    · left
      refine ⟨n + (('\\' :: c :: u).length - (c :: u).length), ?_⟩
      unfold escape_item precededP
      exact seqP_done_incS (charP_done (c :: u)) (seqP_inc hinc)
    · have hq1 : '\x22' ∉ rem1 := fun h => hq (List.mem_cons_of_mem _ (hsub _ h))
      obtain ⟨pr, rem, htail, hle, hqr, hinv⟩ := escape_tail_cases ch rem1 hq1
      right
      refine ⟨pr, rem, ?_, ?_, hqr, hinv⟩
      · unfold escape_item precededP
        exact seqP_done_done (charP_done (c :: u)) (seqP_done_done hdone htail)
      · simp only [List.length_cons] at hlt ⊢
        omega

theorem foldGo_step_inc {fuel : Nat} {i0 s : Str} {acc : CowStr} {n : Nat}
    (hne : s ≠ []) (hp : escape_item s = .incomplete (.size n)) :
    foldGo escape_item cowStep (fuel + 1) i0 s acc =
      .incomplete (.size (n + (i0.length - s.length))) := by
  unfold foldGo
  simp [hne, hp]

theorem foldGo_step_done {fuel : Nat} {i0 s rem : Str} {acc : CowStr} {pr : Char × Str}
    (hne : s ≠ []) (hp : escape_item s = .done rem pr) (hrs : rem ≠ s) :
    foldGo escape_item cowStep (fuel + 1) i0 s acc =
      foldGo escape_item cowStep fuel i0 rem (cowStep acc pr) := by
  rw [foldGo]
  simp [hne, hp, hrs]

/-- The fold over escape items, on a quote-free input satisfying the
invariant, either runs out of input cleanly or signals incompleteness —
it never produces a hard error. -/
theorem foldGo_inv : ∀ (fuel : Nat) (s i0 : Str) (acc : CowStr),
    s.length < fuel → '\x22' ∉ s → (s = [] ∨ s.head? = some '\\') →
    (∃ n, foldGo escape_item cowStep fuel i0 s acc = .incomplete (.size n)) ∨
    (∃ acc2, foldGo escape_item cowStep fuel i0 s acc = .done [] acc2) := by
  intro fuel
  induction fuel with
  | zero =>
    intro s i0 acc hlen _ _
    omega
  | succ fuel ih =>
    intro s i0 acc hlen hq hinv
    rcases hinv with rfl | hh
    · right
      exact ⟨acc, by unfold foldGo; simp⟩
    · obtain ⟨t, rfl⟩ : ∃ t, s = '\\' :: t := by
        cases s with
        | nil => cases hh
        | cons a s' =>
          refine ⟨s', ?_⟩
          have ha : a = '\\' := by simpa using hh
          rw [ha]
      rcases escape_item_cases t hq with ⟨n, hinc⟩ | ⟨pr, rem, hdone, hlt, hqr, hinvr⟩
      · exact Or.inl ⟨_, foldGo_step_inc (by simp) hinc⟩
      · have hrs : rem ≠ '\\' :: t := by
          intro h
          rw [h] at hlt
          exact absurd hlt (lt_irrefl _)
        rw [foldGo_step_done (by simp) hdone hrs]
        refine ih rem i0 (cowStep acc pr) ?_ hqr hinvr
        simp only [List.length_cons] at hlen hlt
        omega

/-- The amended incomplete-universal: an input consisting of an opening
quote and a body with no quote at all (and whose body does not start
with a backslash) always yields an incomplete signal with a size hint. -/
theorem parse_string_incomplete (body : Str) (hq : '\x22' ∉ body)
    (hh : body = [] ∨ body.head? ≠ some '\\') :
    ∃ n, parse_string ('\x22' :: body) = .incomplete (.size n) := by
  cases body with
  | nil => exact ⟨2, by decide⟩
  | cons c t =>
    have hc : c ≠ '\x22' := fun h => hq (by simp [h])
    have hcb : c ≠ '\\' := by
      rcases hh with h | h
      · cases h
      · simpa using h
    have hnotin : c ∉ (['\x22', '\\'] : Str) := by simp [hc, hcb]
    have hisnot := isNotP_done_cons t hnotin
    obtain ⟨hq1, hinv1⟩ := dropWhile_esc_inv (c :: t) hq
    rcases foldGo_inv
        ((((c :: t).dropWhile (fun x => ! (['\x22', '\\'] : Str).contains x)).length) + 1)
        ((c :: t).dropWhile (fun x => ! (['\x22', '\\'] : Str).contains x))
        ((c :: t).dropWhile (fun x => ! (['\x22', '\\'] : Str).contains x))
        (.borrowed ((c :: t).takeWhile (fun x => ! (['\x22', '\\'] : Str).contains x)))
        (by omega) hq1 hinv1 with
      ⟨n, hfold⟩ | ⟨acc2, hfold⟩
    · have hfold2 : foldMany0P escape_item
          (.borrowed ((c :: t).takeWhile (fun x => ! (['\x22', '\\'] : Str).contains x)))
          cowStep ((c :: t).dropWhile (fun x => ! (['\x22', '\\'] : Str).contains x)) =
          .incomplete (.size n) := hfold
      unfold parse_string
      refine seqP_done_incE (charP_done (c :: t)) ?_
      refine seqP_done_incE (mapP_done hisnot) ?_
      exact ⟨n, seqP_inc hfold2⟩
    · have hfold2 : foldMany0P escape_item
          (.borrowed ((c :: t).takeWhile (fun x => ! (['\x22', '\\'] : Str).contains x)))
          cowStep ((c :: t).dropWhile (fun x => ! (['\x22', '\\'] : Str).contains x)) =
          .done [] acc2 := hfold
      unfold parse_string
      refine seqP_done_incE (charP_done (c :: t)) ?_
      refine seqP_done_incE (mapP_done hisnot) ?_
      refine seqP_done_incE hfold2 ?_
      exact ⟨1, mapP_inc rfl⟩

/-- C7, amended.  The quoted-string scanner decodes `\x` plus two hex
digits and bare three-octal-digit escapes to the byte-valued character,
passes any other single escaped character through verbatim, keeps the
result borrowed when no escape occurred and owned once one did (the
three documented examples), and reports an incomplete signal with a
byte hint whenever the input has an opening quote and no closing quote,
provided the body does not begin with a backslash (a body beginning
with a backslash fails outright because the scanner's initial
escape-free run is mandatory — see the initial-run claim). -/
theorem C7_string_escapes_and_incomplete :
    parse_string ("\x22hello, world\x22;".data) =
      .done (";".data) (.borrowed ("hello, world".data)) ∧
    parse_string ("\x22esca\\x0a\\ped\\042\x22;".data) =
      .done (";".data) (.owned ("esca\nped\x22".data)) ∧
    parse_string ("\x22hello".data) = .incomplete (.size 7) ∧
    (∀ body : Str, '\x22' ∉ body → (body = [] ∨ body.head? ≠ some '\\') →
      ∃ n, parse_string ('\x22' :: body) = .incomplete (.size n)) :=
  ⟨by decide, by decide, by decide, parse_string_incomplete⟩

/-- C7 witness: the incomplete-universal applied to the unterminated
body `hi`. -/
theorem C7_string_escapes_and_incomplete_witness :
    ('\x22' ∉ (['h', 'i'] : Str)) ∧
    (∃ n, parse_string ('\x22' :: ['h', 'i']) = .incomplete (.size n)) :=
  ⟨by decide, C7_string_escapes_and_incomplete.2.2.2 ['h', 'i'] (by decide) (by decide)⟩

/-- C7 counterexample: the input `"\a` (opening quote, then a backslash
escape, no closing quote) ends before any closing quote, yet the
scanner does not report an incomplete signal — it fails hard with an
`IsNot` error, because the initial escape-free run is mandatory. -/
theorem C7_string_noclose_error_counterexample :
    parse_string ("\x22\\a".data) = .error (.position .IsNot ("\\a".data)) ∧
    (parse_string ("\x22\\a".data)).isIncomplete = false := by
  refine ⟨by decide, by decide⟩

end Wirefilter
